import Mathlib

/-!
# Codereviewer: the analysis orchestrator of `app.js`

A shallow embedding of `analyzeCodeWithAI`, `generateMockAnalysis` and the `filename`
callback of the upload storage (`src/app.js`), with the pieces of the JavaScript platform they
rely on:

* strings are sequences of UTF-16 code units (`JsString`);
* values are JSON-like data plus `undefined` (`JsVal`);
* `String.prototype.replace` with a global regular expression, `trim`, `startsWith`
  and `match` are list functions on code units;
* `JSON.parse` is a one-pass pushdown recogniser of the JSON grammar that builds the
  value (`JSON.parse`);
* exceptions are explicit (`Except Thrown`), `try`/`catch` is a case split, and a `catch`
  block reads the properties of what it caught;
* the remote client answers a request knowing the requests it has received before, may never
  settle, and receives requests through `create` only, which records them (`Run.calls`).

Console output is not part of the embedding; evaluating the arguments of a
`console.log` call is (it may raise).
-/

namespace Codereviewer

/-! ## Strings -/

/-- A JavaScript string, as the list of its UTF-16 code units. -/
abbrev JsString := List Nat

/-- Code units of a literal made of ASCII characters. -/
def units (s : String) : JsString := s.toList.map Char.toNat

/-- White space and line terminators of ECMAScript: what `\s` matches and what `trim` removes. -/
def isSpace (c : Nat) : Bool :=
  c == 9 || c == 10 || c == 11 || c == 12 || c == 13 || c == 32 || c == 160 || c == 5760 ||
  (8192 ≤ c && c ≤ 8202) || c == 8232 || c == 8233 || c == 8239 || c == 8287 ||
  c == 12288 || c == 65279

/-- Three backticks. -/
def fence : JsString := [96, 96, 96]

/-- Three backticks followed by `json`. -/
def fenceJson : JsString := [96, 96, 96, 106, 115, 111, 110]

/-- The regular expression ```` /```json\s*/ ```` tried at the head of `s`: the length of the
match, if there is one. -/
def matchFenceJson (s : JsString) : Option Nat :=
  if fenceJson.isPrefixOf s then some (7 + ((s.drop 7).takeWhile isSpace).length) else none

/-- The regular expression ```` /\s*```/ ```` tried at the head of `s`: the greedy run of white
space must be followed by the three backticks (giving back white space cannot help). -/
def matchFence (s : JsString) : Option Nat :=
  if fence.isPrefixOf (s.dropWhile isSpace) then some ((s.takeWhile isSpace).length + 3) else none

/-- The call `s.replace(re, '')` for a global regular expression `re`, given by its matcher at
the head of a string: scan from the left, drop every match, resume right after it.
The first argument counts the code units of the current match still to drop. -/
def removeAll (matchAt : JsString → Option Nat) : Nat → JsString → JsString
  | _, [] => []
  | k + 1, _ :: cs => removeAll matchAt k cs
  | 0, c :: cs =>
    match matchAt (c :: cs) with
    | some (n + 1) => removeAll matchAt n cs
    | _ => c :: removeAll matchAt 0 cs

/-- The method `trim`. -/
def trim (s : JsString) : JsString := (s.dropWhile isSpace).rdropWhile isSpace

/-- The call `s.match(/\{[\s\S]*\}/)`, element 0 of its result: from the first opening brace
to the last closing brace after it; `none` stands for `null`. -/
def braceSpan (s : JsString) : Option JsString :=
  match s.dropWhile (fun c => c != 123) with
  | [] => none
  | _ :: rest => if 125 ∈ rest then some (123 :: rest.rdropWhile (fun c => c != 125)) else none

/-- Decimal digits of a natural number, most significant first (worker with fuel). -/
def decimalAux : Nat → Nat → JsString → JsString
  | 0, _, acc => acc
  | fuel + 1, n, acc =>
    if n < 10 then (48 + n) :: acc else decimalAux fuel (n / 10) ((48 + n % 10) :: acc)

/-- Decimal digits of a natural number: what `String(n)` gives for a count. -/
def decimal (n : Nat) : JsString := decimalAux (n + 1) n []

/-! ## Values -/

/-- JavaScript values the orchestrator handles: JSON data and `undefined`. A number is kept as
its literal (its value as a double is not computed); an object is the list of its own
properties in insertion order (the place JavaScript gives integer-like keys when it
enumerates an object is not modelled). -/
inductive JsVal where
  | undefined
  | null
  | bool (b : Bool)
  | num (literal : JsString)
  | str (s : JsString)
  | arr (items : List JsVal)
  | obj (fields : List (JsString × JsVal))

mutual
/-- Equality of values is decidable. -/
def JsVal.decEq : (a b : JsVal) → Decidable (a = b)
  | .undefined, .undefined => isTrue rfl
  | .null, .null => isTrue rfl
  | .bool a, .bool b =>
    if h : a = b then isTrue (by rw [h]) else isFalse (by intro e; injection e; contradiction)
  | .num a, .num b =>
    if h : a = b then isTrue (by rw [h]) else isFalse (by intro e; injection e; contradiction)
  | .str a, .str b =>
    if h : a = b then isTrue (by rw [h]) else isFalse (by intro e; injection e; contradiction)
  | .arr a, .arr b =>
    match JsVal.decEqList a b with
    | isTrue h => isTrue (by rw [h])
    | isFalse h => isFalse (by intro e; injection e; contradiction)
  | .obj a, .obj b =>
    match JsVal.decEqFields a b with
    | isTrue h => isTrue (by rw [h])
    | isFalse h => isFalse (by intro e; injection e; contradiction)
  | .undefined, .null | .undefined, .bool _ | .undefined, .num _ | .undefined, .str _
  | .undefined, .arr _ | .undefined, .obj _ | .null, .undefined | .null, .bool _ | .null, .num _
  | .null, .str _ | .null, .arr _ | .null, .obj _ | .bool _, .undefined | .bool _, .null
  | .bool _, .num _ | .bool _, .str _ | .bool _, .arr _ | .bool _, .obj _ | .num _, .undefined
  | .num _, .null | .num _, .bool _ | .num _, .str _ | .num _, .arr _ | .num _, .obj _
  | .str _, .undefined | .str _, .null | .str _, .bool _ | .str _, .num _ | .str _, .arr _
  | .str _, .obj _ | .arr _, .undefined | .arr _, .null | .arr _, .bool _ | .arr _, .num _
  | .arr _, .str _ | .arr _, .obj _ | .obj _, .undefined | .obj _, .null | .obj _, .bool _
  | .obj _, .num _ | .obj _, .str _ | .obj _, .arr _
    => isFalse (by intro h; cases h)
/-- Equality of lists of values is decidable. -/
def JsVal.decEqList : (a b : List JsVal) → Decidable (a = b)
  | [], [] => isTrue rfl
  | x :: xs, y :: ys =>
    match JsVal.decEq x y, JsVal.decEqList xs ys with
    | isTrue h, isTrue h' => isTrue (by rw [h, h'])
    | isFalse h, _ => isFalse (by intro e; injection e; contradiction)
    | _, isFalse h => isFalse (by intro e; injection e; contradiction)
  | [], _ :: _ => isFalse (by intro h; cases h)
  | _ :: _, [] => isFalse (by intro h; cases h)
/-- Equality of property lists is decidable. -/
def JsVal.decEqFields : (a b : List (JsString × JsVal)) → Decidable (a = b)
  | [], [] => isTrue rfl
  | (k, x) :: xs, (l, y) :: ys =>
    if hk : k = l then
      match JsVal.decEq x y, JsVal.decEqFields xs ys with
      | isTrue h, isTrue h' => isTrue (by rw [hk, h, h'])
      | isFalse h, _ => isFalse (by intro e; injection e with e1 e2; injection e1; contradiction)
      | _, isFalse h => isFalse (by intro e; injection e; contradiction)
    else isFalse (by intro e; injection e with e1 e2; injection e1; contradiction)
  | [], _ :: _ => isFalse (by intro h; cases h)
  | _ :: _, [] => isFalse (by intro h; cases h)
end

instance : DecidableEq JsVal := JsVal.decEq
deriving instance DecidableEq for Except

/-- What a `throw` or a rejected promise carries: an error object raised by the engine (a
`TypeError` on reading a property of `null` or `undefined` or on calling what is no function,
a `SyntaxError` of `JSON.parse`), the error object the remote client rejects with (its
`message` and, when set, `status`), or any other value (`null`, `undefined`, a string, a plain
object: JavaScript lets a promise be rejected with any value). -/
inductive Thrown where
  | typeError
  | jsonError
  | clientError (message : JsString) (status : Option Nat)
  | value (v : JsVal)
  deriving DecidableEq

/-- The value of the first property named `key` in a property list. -/
def lookup : List (JsString × JsVal) → JsString → Option JsVal
  | [], _ => none
  | (k, v) :: rest, key => if k = key then some v else lookup rest key

/-- Define the property `key` as `v`: overwrite it in place when the object has it, add it at
the end otherwise. -/
def setField : List (JsString × JsVal) → JsString → JsVal → List (JsString × JsVal)
  | [], key, v => [(key, v)]
  | (k, x) :: rest, key, v =>
    if k = key then (k, v) :: rest else (k, x) :: setField rest key v

/-- The own property `key` of an object; `none` when `v` is no object or lacks it. -/
def field (v : JsVal) (key : JsString) : Option JsVal :=
  match v with
  | .obj fields => lookup fields key
  | _ => none

/-- The read `v.key` for a name that no built-in prototype defines (`length` of strings and
arrays apart): a `TypeError` on `null` and `undefined`, `undefined` for a missing property. -/
def getProp (v : JsVal) (key : JsString) : Except Thrown JsVal :=
  match v with
  | .undefined => .error .typeError
  | .null => .error .typeError
  | .obj fields => .ok ((lookup fields key).getD .undefined)
  | .str s => .ok (if key = units "length" then .num (decimal s.length) else .undefined)
  | .arr items => .ok (if key = units "length" then .num (decimal items.length) else .undefined)
  | _ => .ok .undefined

/-- The read `v[0]`. -/
def getFirst (v : JsVal) : Except Thrown JsVal :=
  match v with
  | .undefined => .error .typeError
  | .null => .error .typeError
  | .obj fields => .ok ((lookup fields (units "0")).getD .undefined)
  | .str s => .ok (match s with | [] => .undefined | c :: _ => .str [c])
  | .arr items => .ok (items.head?.getD .undefined)
  | _ => .ok .undefined

/-- The assignment `v.key = x` in non-strict code, giving the updated `v`: a `TypeError` on
`null` and `undefined`, ignored on a primitive. The two properties the orchestrator assigns are
never read back, so an array (which JavaScript would give the named property) is left as is. -/
def setProp (v : JsVal) (key : JsString) (x : JsVal) : Except Thrown JsVal :=
  match v with
  | .undefined => .error .typeError
  | .null => .error .typeError
  | .obj fields => .ok (.obj (setField fields key x))
  | other => .ok other

/-- The read `error.key` of a `catch` block, kept for whether it raises (what it gives only
goes to the log): an error object has its properties; any other thrown value is read like
every value, so on `null` and `undefined` the read raises a `TypeError`. -/
def readThrown (error : Thrown) (key : JsString) : Except Thrown Unit :=
  match error with
  | .value v => (getProp v key).map (fun _ => ())
  | _ => .ok ()

/-! ## `JSON.parse` -/

/-- White space of the JSON grammar. -/
def isJsonSpace (c : Nat) : Bool := c == 32 || c == 9 || c == 10 || c == 13

/-- A container under construction: the elements read so far, or the members read so far and
the key whose value is being read. -/
inductive Frame where
  | arr (items : List JsVal)
  | obj (fields : List (JsString × JsVal)) (key : JsString)
  deriving DecidableEq

/-- Where the recogniser stands inside a number literal. -/
inductive NumPhase where
  | minus | zero | int | dot | frac | e | esign | exp
  deriving DecidableEq

/-- Whether a number literal may end here. -/
def NumPhase.accepting : NumPhase → Bool
  | .zero => true
  | .int => true
  | .frac => true
  | .exp => true
  | _ => false

/-- What the recogniser expects next. -/
inductive Mode where
  /-- A value must start (white space may precede it). -/
  | value
  /-- Right after `[`: a value or `]`. -/
  | arrStart
  /-- Right after the opening brace: a key or the closing brace. -/
  | objStart
  /-- After a comma in an object: a key. -/
  | key
  /-- After a key: the colon. -/
  | colon
  /-- Inside a string (a key when `isKey`), `acc` read so far. -/
  | str (isKey : Bool) (acc : JsString)
  /-- Inside a string, right after a backslash. -/
  | esc (isKey : Bool) (acc : JsString)
  /-- Inside a `\u` escape: `n` hexadecimal digits read, of value `v`. -/
  | hex (isKey : Bool) (acc : JsString) (n : Nat) (v : Nat)
  /-- Inside a number literal. -/
  | num (literal : JsString) (ph : NumPhase)
  /-- Inside `true`, `false` or `null`: the code units still to come. -/
  | lit (rest : JsString) (v : JsVal)
  /-- A value of the open container has ended: a comma or the closing bracket. -/
  | after
  /-- The top-level value has ended: only white space may follow. -/
  | done (v : JsVal)
  deriving DecidableEq

/-- State of the recogniser: the open containers, innermost first, and the mode. -/
structure PState where
  stack : List Frame
  mode : Mode
  deriving DecidableEq

/-- A value has been read in full: store it in the innermost open container, or finish. -/
def complete (stack : List Frame) (v : JsVal) : PState :=
  match stack with
  | [] => ⟨[], .done v⟩
  | .arr items :: rest => ⟨.arr (items ++ [v]) :: rest, .after⟩
  | .obj fields key :: rest => ⟨.obj (setField fields key v) key :: rest, .after⟩

/-- First code unit of a value. -/
def startValue (stack : List Frame) (c : Nat) : Option PState :=
  if c = 123 then some ⟨.obj [] [] :: stack, .objStart⟩
  else if c = 91 then some ⟨.arr [] :: stack, .arrStart⟩
  else if c = 34 then some ⟨stack, .str false []⟩
  else if c = 45 then some ⟨stack, .num [c] .minus⟩
  else if c = 48 then some ⟨stack, .num [c] .zero⟩
  else if 49 ≤ c ∧ c ≤ 57 then some ⟨stack, .num [c] .int⟩
  else if c = 116 then some ⟨stack, .lit [114, 117, 101] (.bool true)⟩
  else if c = 102 then some ⟨stack, .lit [97, 108, 115, 101] (.bool false)⟩
  else if c = 110 then some ⟨stack, .lit [117, 108, 108] .null⟩
  else none

/-- A code unit right after a complete value: white space, a comma, or the bracket closing
the innermost open container. -/
def afterValue (st : PState) (c : Nat) : Option PState :=
  if isJsonSpace c then some st
  else
    match st.stack with
    | [] => none
    | .arr items :: rest =>
      if c = 44 then some ⟨st.stack, .value⟩
      else if c = 93 then some (complete rest (.arr items))
      else none
    | .obj fields _ :: rest =>
      if c = 44 then some ⟨st.stack, .key⟩
      else if c = 125 then some (complete rest (.obj fields))
      else none

/-- The phase of a number literal after one more code unit of it; `none` when `c` cannot
continue the literal. -/
def numNext (ph : NumPhase) (c : Nat) : Option NumPhase :=
  match ph with
  | .minus => if c = 48 then some .zero else if 49 ≤ c ∧ c ≤ 57 then some .int else none
  | .zero => if c = 46 then some .dot else if c = 101 ∨ c = 69 then some .e else none
  | .int =>
    if 48 ≤ c ∧ c ≤ 57 then some .int
    else if c = 46 then some .dot
    else if c = 101 ∨ c = 69 then some .e
    else none
  | .dot => if 48 ≤ c ∧ c ≤ 57 then some .frac else none
  | .frac =>
    if 48 ≤ c ∧ c ≤ 57 then some .frac
    else if c = 101 ∨ c = 69 then some .e
    else none
  | .e =>
    if c = 43 ∨ c = 45 then some .esign
    else if 48 ≤ c ∧ c ≤ 57 then some .exp
    else none
  | .esign => if 48 ≤ c ∧ c ≤ 57 then some .exp else none
  | .exp => if 48 ≤ c ∧ c ≤ 57 then some .exp else none

/-- The code unit a one-letter escape stands for. -/
def escapeOf (c : Nat) : Option Nat :=
  if c = 34 then some 34
  else if c = 92 then some 92
  else if c = 47 then some 47
  else if c = 98 then some 8
  else if c = 102 then some 12
  else if c = 110 then some 10
  else if c = 114 then some 13
  else if c = 116 then some 9
  else none

/-- Value of a hexadecimal digit. -/
def hexVal (c : Nat) : Option Nat :=
  if 48 ≤ c ∧ c ≤ 57 then some (c - 48)
  else if 97 ≤ c ∧ c ≤ 102 then some (c - 87)
  else if 65 ≤ c ∧ c ≤ 70 then some (c - 55)
  else none

/-- The closing quote of a string: a key goes into the innermost object frame, a value is
complete. -/
def endString (stack : List Frame) (isKey : Bool) (acc : JsString) : Option PState :=
  if isKey then
    match stack with
    | .obj fields _ :: rest => some ⟨.obj fields acc :: rest, .colon⟩
    | _ => none
  else some (complete stack (.str acc))

/-- One code unit of input; `none` is a syntax error. -/
def step (st : PState) (c : Nat) : Option PState :=
  match st.mode with
  | .value => if isJsonSpace c then some st else startValue st.stack c
  | .arrStart =>
    if isJsonSpace c then some st
    else if c = 93 then
      match st.stack with
      | .arr items :: rest => some (complete rest (.arr items))
      | _ => none
    else startValue st.stack c
  | .objStart =>
    if isJsonSpace c then some st
    else if c = 125 then
      match st.stack with
      | .obj fields _ :: rest => some (complete rest (.obj fields))
      | _ => none
    else if c = 34 then some ⟨st.stack, .str true []⟩
    else none
  | .key =>
    if isJsonSpace c then some st
    else if c = 34 then some ⟨st.stack, .str true []⟩
    else none
  | .colon =>
    if isJsonSpace c then some st
    else if c = 58 then some ⟨st.stack, .value⟩
    else none
  | .str isKey acc =>
    if c = 34 then endString st.stack isKey acc
    else if c = 92 then some ⟨st.stack, .esc isKey acc⟩
    else if c < 32 then none
    else some ⟨st.stack, .str isKey (acc ++ [c])⟩
  | .esc isKey acc =>
    match escapeOf c with
    | some u => some ⟨st.stack, .str isKey (acc ++ [u])⟩
    | none => if c = 117 then some ⟨st.stack, .hex isKey acc 0 0⟩ else none
  | .hex isKey acc n v =>
    match hexVal c with
    | some d =>
      if n = 3 then some ⟨st.stack, .str isKey (acc ++ [16 * v + d])⟩
      else some ⟨st.stack, .hex isKey acc (n + 1) (16 * v + d)⟩
    | none => none
  | .num literal ph =>
    match numNext ph c with
    | some ph' => some ⟨st.stack, .num (literal ++ [c]) ph'⟩
    | none => if ph.accepting then afterValue (complete st.stack (.num literal)) c else none
  | .lit rest v =>
    match rest with
    | [] => none
    | [r] => if c = r then some (complete st.stack v) else none
    | r :: more => if c = r then some ⟨st.stack, .lit more v⟩ else none
  | .after => afterValue st c
  | .done _ => afterValue st c

/-- The whole input, one code unit at a time. -/
def run : PState → JsString → Option PState
  | st, [] => some st
  | st, c :: cs =>
    match step st c with
    | some st' => run st' cs
    | none => none

/-- End of input: the top-level value must be complete. -/
def finish (st : PState) : Option JsVal :=
  match st.stack, st.mode with
  | [], .done v => some v
  | [], .num literal ph => if ph.accepting then some (.num literal) else none
  | _, _ => none

/-- The function `JSON.parse` on a string, without reviver: the value of the JSON text, or a
`SyntaxError`. A duplicate key keeps its first position and its last value. -/
def JSON.parse (text : JsString) : Except Thrown JsVal :=
  match (run ⟨[], .value⟩ text).bind finish with
  | some v => .ok v
  | none => .error .jsonError

/-! ## The orchestrator -/

/-- The function `generateMockAnalysis` of `app.js`: the fixed placeholder report, in English
when `language` is `en` and in Dutch otherwise, with the uploaded code as its improved code. -/
def generateMockAnalysis (code _fileName language _targetLanguage : JsString) : JsVal :=
  let isEnglish : Bool := language = units "en"
  .obj [
    (units "improvedCode", .str code),
    (units "feedback", .obj [
      (units "overall", .str (if isEnglish
        then units "This is a demo analysis. Configure Groq API for detailed code reviews."
        else units
          "Dit is een demo analyse. Configureer Groq API voor gedetailleerde code reviews.")),
      (units "strengths", .arr [
        .str (if isEnglish then units "Code structure is readable"
          else units "Code structuur is leesbaar"),
        .str (if isEnglish then units "Good variable naming"
          else units "Goede variabele namen")]),
      (units "improvements", .arr [
        .str (if isEnglish then units "Add error handling"
          else units "Voeg foutafhandeling toe"),
        .str (if isEnglish then units "Use const instead of let where possible"
          else units "Gebruik const in plaats van let waar mogelijk"),
        .str (if isEnglish then units "Split large functions into smaller ones"
          else units "Splits grote functies in kleinere")]),
      (units "bestPractices", .arr [
        .str (if isEnglish then units "Add comments for complex logic"
          else units "Voeg commentaar toe voor complexe logica"),
        .str (if isEnglish then units "Follow consistent code style"
          else units "Houd consistente code stijl aan"),
        .str (if isEnglish then units "Use modern language features"
          else units "Gebruik moderne taal features")]),
      (units "security", .arr [
        .str (if isEnglish then units "Implement input validation"
          else units "Implementeer input validatie")]),
      (units "performance", .arr [
        .str (if isEnglish then units "Optimize database queries"
          else units "Optimaliseer database queries")])]),
    (units "statistics", .obj [
      (units "complexity", .str (units "medium")),
      (units "readability", .str (units "7")),
      (units "maintainability", .str (units "6")),
      (units "efficiency", .str (units "5"))]),
    (units "analysisTime", .str (units "0s")),
    (units "aiEnabled", .bool false)]

/-- What one call of `aiClient.chat.completions.create` ends in when it settles: the value it
rejects with, or the completion object it resolves with. -/
inductive ClientOutcome where
  | raised (e : Thrown)
  | returned (completion : JsVal)
  deriving DecidableEq

/-- The remote client: what a call with a request ends in, given the requests the client has
received before it in the same run of the orchestrator (a second try may end otherwise than
the first); `none` is a call that never settles. -/
abbrev AiClient := List JsVal → JsVal → Option ClientOutcome

/-- The module-level variables `aiClient`, `aiProvider` and `aiEnabled`, set once at start-up. -/
structure Config where
  aiClient : Option AiClient
  aiProvider : JsString
  aiEnabled : Bool

/-- The two readings of `Date.now()` (milliseconds), and the engine's rounding in `toFixed`:
`hundredths ms` is the whole number of hundredths nearest to the double `ms / 1000`. -/
structure Clock where
  startTime : Int
  endTime : Int
  hundredths : Nat → Nat

/-- The expression `(ms / 1000).toFixed(2)`: a minus sign for a negative number, the whole part,
a point, two decimals. -/
def toFixed2 (hundredths : Nat → Nat) (ms : Int) : JsString :=
  (if ms < 0 then [45] else []) ++ decimal (hundredths ms.natAbs / 100) ++
    [46, 48 + hundredths ms.natAbs % 100 / 10, 48 + hundredths ms.natAbs % 10]

/-- The template literal `prompt` of `analyzeCodeWithAI`. -/
def buildPrompt (code fileName targetLanguage : JsString) (isEnglish : Bool) : JsString :=
  units (
      "\n" ++
      "JE BENT EEN EXPERT CODE REVIEWER EN SENIOR SOFTWARE ENGINEER.\n" ++
      "\n" ++
      "# OPDRACHT:\n" ++
      "Analyseer de onderstaande code ULTRA-GEDETAILLEERD en geef CONCRETE, UITVOERBARE verbeteringen.\n" ++
      "\n" ++
      "# BESTANDSINFORMATIE:\n" ++
      "- Bestandsnaam: ") ++
  fileName ++
  units (
      "\n" ++
      "- Programmeertaal: ") ++
  targetLanguage ++
  units (
      "\n" ++
      "- Code lengte: ") ++
  decimal code.length ++
  units (
      " karakters\n" ++
      "\n" ++
      "# TE ANALYSEREN CODE:\n" ++
      "```") ++
  targetLanguage ++
  units (
      "\n") ++
  code ++
  units (
      "\n" ++
      "```\n" ++
      "\n" ++
      "# ANALYSE CRITERIA (WEES EXTREEM GEDETAILLEERD):\n" ++
      "\n" ++
      "## 1. ALGEMENE CODE KWALITEIT\n" ++
      "- Architectuur en structuur\n" ++
      "- Leesbaarheid en onderhoudbaarheid  \n" ++
      "- Code organisatie en modulariteit\n" ++
      "- Consistentie in code style\n" ++
      "\n" ++
      "## 2. PERFORMANCE OPTIMALISATIES\n" ++
      "- Algorithmische complexiteit\n" ++
      "- Geheugengebruik\n" ++
      "- Database queries (indien van toepassing)\n" ++
      "- Loops en iteraties\n" ++
      "\n" ++
      "## 3. BEVEILIGING (SECURITY)\n" ++
      "- Input validatie en sanitization\n" ++
      "- Authentication en authorization\n" ++
      "- Data protection\n" ++
      "- Kwetsbaarheden en risks\n" ++
      "\n" ++
      "## 4. BEST PRACTICES\n" ++
      "- Taal-specifieke conventions\n" ++
      "- Design patterns\n" ++
      "- Error handling\n" ++
      "- Code documentation\n" ++
      "\n" ++
      "## 5. SPECIFIEKE PROBLEMEN\n" ++
      "- Bugs en logical errors\n" ++
      "- Edge cases\n" ++
      "- Potential failures\n" ++
      "- Compatibility issues\n" ++
      "\n" ++
      "# GEVRAAGDE OUTPUT FORMAAT (JSON):\n" ++
      "\n" ++
      "\x7b\n" ++
      "  \"improvedCode\": \"VOLLEDIGE verbeterde code hier. Toon ALLE wijzigingen duidelijk aan. Gebruik comments om wijzigingen te markeren.\",\n" ++
      "  \"feedback\": \x7b\n" ++
      "    \"overall\": \"Zeer gedetailleerde samenvatting van 4-5 zinnen die de algemene code kwaliteit beschrijft, belangrijkste issues en aanbevelingen\",\n" ++
      "    \"strengths\": [\"minimaal 5 specifieke sterke punten met uitleg\", \"wees concreet en gedetailleerd\"],\n" ++
      "    \"improvements\": [\"minimaal 8 concrete verbeterpunten\", \"specificeer exact wat en waar verbeterd moet worden\", \"geef voorbeelden\"],\n" ++
      "    \"bestPractices\": [\"minimaal 5 aanbevolen practices\", \"specifiek voor ") ++
  targetLanguage ++
  units (
      "\"],\n" ++
      "    \"security\": [\"minimaal 3 security recommendations\", \"concrete beveiligingsissues en oplossingen\"],\n" ++
      "    \"performance\": [\"minimaal 3 performance tips\", \"specifieke optimalisaties\"]\n" ++
      "  \x7d,\n" ++
      "  \"statistics\": \x7b\n" ++
      "    \"complexity\": \"zeer_laag/laag/medium/hoog/zeer_hoog\",\n" ++
      "    \"readability\": \"cijfer 1-10 met uitleg\",\n" ++
      "    \"maintainability\": \"cijfer 1-10 met uitleg\", \n" ++
      "    \"efficiency\": \"cijfer 1-10 met uitleg\"\n" ++
      "  \x7d\n" ++
      "\x7d\n" ++
      "\n" ++
      "# BELANGRIJK:\n" ++
      "- WEES EXTREEM GEDETAILLEERD EN SPECIFIEK\n" ++
      "- Geef concrete voorbeelden en code snippets\n" ++
      "- Toon exact hoe de code verbeterd kan worden\n" ++
      "- Benoem regelnummers of specifieke code secties\n" ++
      "- Gebruik duidelijke, technische taal\n" ++
      "- Focus op actionable recommendations\n" ++
      "\n" ++
      "Antwoord in het ") ++
  (if isEnglish then units "Engels" else units "Nederlands") ++
  units (
      ".\n")

/-- The `content` of the system message. -/
def systemMessage : JsString := units (
  "Je bent een senior software engineer met 15+ jaar ervaring in code reviews, refactoring, en software architecture. Je geeft altijd ultra-gedetailleerde, technische feedback met concrete voorbeelden. Je antwoordt altijd in het gevraagde JSON formaat en bent extreem specifiek in je analyse.")

/-- The model name: the first entry of `availableModels` for Groq, `gpt-4` otherwise. -/
def chooseModel (aiProvider : JsString) : JsString :=
  if aiProvider = units "groq" then
    ([units "llama-3.1-8b-instant", units "llama-3.1-70b-versatile", units "mixtral-8x7b-32768",
      units "llama3-8b-8192"].head?).getD []
  else units "gpt-4"

/-- The argument of `aiClient.chat.completions.create`. -/
def chatRequest (cfg : Config) (code fileName language targetLanguage : JsString) : JsVal :=
  .obj [
    (units "model", .str (chooseModel cfg.aiProvider)),
    (units "messages", .arr [
      .obj [(units "role", .str (units "system")), (units "content", .str systemMessage)],
      .obj [(units "role", .str (units "user")),
        (units "content",
          .str (buildPrompt code fileName targetLanguage (language = units "en")))]]),
    (units "temperature", .num (units "0.1")),
    (units "max_tokens", .num (units "6000")),
    (units "top_p", .num (units "0.9"))]

/-- The expression `completion.choices[0].message.content`. -/
def readContent (completion : JsVal) : Except Thrown JsVal := do
  let choices ← getProp completion (units "choices")
  let first ← getFirst choices
  let message ← getProp first (units "message")
  getProp message (units "content")

/-- The clean-up of the reply text: both `replace` calls, then `trim`. -/
def cleanResponse (response : JsString) : JsString :=
  trim (removeAll matchFence 0 (removeAll matchFenceJson 0 response))

/-- The text handed to `JSON.parse`: the cleaned reply, or its brace span when the cleaned reply
does not start with an opening brace and has such a span. -/
def jsonText (response : JsString) : JsString :=
  if (cleanResponse response).head? = some 123 then cleanResponse response
  else
    match braceSpan (cleanResponse response) with
    | some span => span
    | none => cleanResponse response

/-- Clean-up and parse: from the reply text to the parsed value. -/
def extractJson (response : JsString) : Except Thrown JsVal :=
  JSON.parse (jsonText response)

/-- The body of the inner `try`: clean-up (`replace` exists on strings only), `JSON.parse`, the
two assignments, and the three property chains the log lines evaluate. -/
def parseReply (response : JsVal) (analysisTime : JsString) : Except Thrown JsVal := do
  let text ← (match response with
    | .str s => Except.ok s
    | _ => Except.error Thrown.typeError)
  let parsed ← extractJson text
  let timed ← setProp parsed (units "analysisTime") (.str analysisTime)
  let result ← setProp timed (units "aiEnabled") (.bool true)
  let statistics ← getProp result (units "statistics")
  let _ ← getProp statistics (units "complexity")
  let _ ← getProp statistics (units "readability")
  let feedback ← getProp result (units "feedback")
  let improvements ← getProp feedback (units "improvements")
  let _ ← getProp improvements (units "length")
  pure result

/-- Both `catch` blocks end the same way: the placeholder, its `aiEnabled` assigned `false`. -/
def fallback (code fileName language targetLanguage : JsString) : Except Thrown JsVal :=
  setProp (generateMockAnalysis code fileName language targetLanguage) (units "aiEnabled")
    (.bool false)

/-- The inner `catch` block: its log line reads `parseError.message`, then the placeholder.
The block sits inside the outer `try`: what it raises goes to the outer `catch`. -/
def catchParse (parseError : Thrown) (code fileName language targetLanguage : JsString) :
    Except Thrown JsVal := do
  readThrown parseError (units "message")
  fallback code fileName language targetLanguage

/-- The outer `catch` block: its log line reads `error.message`, its two tests read
`error.status`, then the placeholder. Nothing encloses the block: what it raises leaves the
function. -/
def catchAll (error : Thrown) (code fileName language targetLanguage : JsString) :
    Except Thrown JsVal := do
  readThrown error (units "message")
  readThrown error (units "status")
  fallback code fileName language targetLanguage

/-- The body of the outer `try` from the awaited call on, once the call has settled. -/
def handleOutcome (clock : Clock) (outcome : ClientOutcome)
    (code fileName language targetLanguage : JsString) : Except Thrown JsVal := do
  let completion ← (match outcome with
    | .raised e => Except.error e
    | .returned c => Except.ok c)
  let response ← readContent completion
  let analysisTime :=
    toFixed2 clock.hundredths (clock.endTime - clock.startTime) ++ units "s"
  let _ ← getProp response (units "length")
  match parseReply response analysisTime with
  | .ok result => pure result
  | .error parseError => catchParse parseError code fileName language targetLanguage

/-- How a promise ends: resolved with a value, rejected with what was thrown, or never
settled. -/
inductive Settled (α : Type) where
  | resolved (value : α)
  | rejected (error : Thrown)
  | pending
  deriving DecidableEq

instance : Functor Settled where
  map f s :=
    match s with
    | .resolved v => .resolved (f v)
    | .rejected e => .rejected e
    | .pending => .pending

/-- The promise of an `async` function whose body ends in `x`. -/
def settle {α : Type} (x : Except Thrown α) : Settled α :=
  match x with
  | .ok v => .resolved v
  | .error e => .rejected e

/-- The call `aiClient.chat.completions.create(request)` on a client that has received the
requests `before`: the client is applied to the request, and the request joins those it has
received. Every request on record went through here. -/
def create (client : AiClient) (request : JsVal) (before : List JsVal) :
    Option ClientOutcome × List JsVal :=
  (client before request, before ++ [request])

/-- One run of the orchestrator: how its promise ends, and the requests the remote client has
received, in order. -/
structure Run where
  result : Settled JsVal
  calls : List JsVal
  deriving DecidableEq

/-- The function `analyzeCodeWithAI` of `app.js`. -/
def analyzeCodeWithAI (cfg : Config) (clock : Clock)
    (code fileName language targetLanguage : JsString) : Run :=
  match cfg.aiClient, cfg.aiEnabled with
  | some client, true =>
    match create client (chatRequest cfg code fileName language targetLanguage) [] with
    | (none, calls) => ⟨.pending, calls⟩
    | (some outcome, calls) =>
      match handleOutcome clock outcome code fileName language targetLanguage with
      | .ok result => ⟨.resolved result, calls⟩
      | .error error => ⟨settle (catchAll error code fileName language targetLanguage), calls⟩
  | _, _ => ⟨.resolved (generateMockAnalysis code fileName language targetLanguage), []⟩

/-! ## Sample inputs -/

/-- The module-level variables when no API key is set (`app.js`, lines 12 to 14). -/
def noClientConfig : Config := ⟨none, units "none", false⟩

/-- The module-level variables when `GROQ_API_KEY` is set (`app.js`, lines 17 to 25). -/
def groqConfig (client : AiClient) : Config := ⟨some client, units "groq", true⟩

/-- A completion object that carries `reply` as the text of its first choice. -/
def completionOf (reply : JsString) : JsVal :=
  .obj [(units "choices", .arr [.obj [(units "message", .obj [(units "content", .str reply)])]])]

/-- A remote client that answers every request with the text `reply`. -/
def replyingClient (reply : JsString) : AiClient :=
  fun _ _ => some (.returned (completionOf reply))

/-- A remote client that rejects every request with `e`. -/
def failingClient (e : Thrown) : AiClient := fun _ _ => some (.raised e)

/-- A remote client that rejects its first request with `e` and answers every later one with
the text `reply`: a second try would succeed. -/
def flakyClient (e : Thrown) (reply : JsString) : AiClient :=
  fun before _ =>
    match before with
    | [] => some (.raised e)
    | _ :: _ => some (.returned (completionOf reply))

/-- A remote client whose calls never settle. -/
def stalledClient : AiClient := fun _ _ => none

/-- Whether what was thrown is `null` or `undefined`. -/
def isNullish (e : Thrown) : Bool :=
  match e with
  | .value .null => true
  | .value .undefined => true
  | _ => false

/-- A clock: 1234 milliseconds between the two readings, hundredths rounded half up. -/
def sampleClock : Clock := ⟨1000, 2234, fun ms => (ms + 5) / 10⟩

/-- The property `feedback.overall` of a result. -/
def overallOf (r : JsVal) : Option JsVal :=
  (field r (units "feedback")).bind (fun f => field f (units "overall"))

/-- Whether a promise has resolved with a value. -/
def isResolved {α : Type} (s : Settled α) : Bool :=
  match s with
  | .resolved _ => true
  | _ => false

/-! ## Invariants of the recogniser -/

/-- The outermost open container is an array. -/
def ArrRooted (stack : List Frame) : Prop := ∃ top items, stack = top ++ [Frame.arr items]

/-- The mode is inside or after a string, a number or a literal. -/
def Scalar : Mode → Prop
  | .str _ _ => True
  | .esc _ _ => True
  | .hex _ _ _ _ => True
  | .num _ _ => True
  | .lit _ v => ∀ fs, v ≠ JsVal.obj fs
  | .done v => ∀ fs, v ≠ JsVal.obj fs
  | _ => False

/-- The top-level value being read is no object: its outermost container is an array, or it
is a string, a number or a literal. -/
def NoObj (st : PState) : Prop :=
  ArrRooted st.stack ∨ (st.stack = [] ∧ Scalar st.mode)

/-- A literal in progress stands for `true`, `false` or `null`, never for an object. -/
def LitOk (st : PState) : Prop := ∀ r v, st.mode = .lit r v → ∀ fs, v ≠ JsVal.obj fs

/-! ## Notions used to state the claims -/

/-- The code unit `x` stops the matcher `m`: no match starts at `x`, and a match that starts
before `x` ends before it, whatever follows `x`. -/
def Barrier (m : JsString → Option Nat) (x : Nat) : Prop :=
  (∀ B, m (x :: B) = none) ∧
    (∀ a A B, m (a :: (A ++ x :: B)) = m (a :: (A ++ [x]))) ∧
    (∀ a A n, m (a :: (A ++ [x])) = some n → n ≤ A.length + 1)

/-- Whether the text holds three backticks in a row. -/
def containsFence : JsString → Bool
  | [] => false
  | c :: cs => fence.isPrefixOf (c :: cs) || containsFence cs

/-- A property value that is there and is neither `null` nor `undefined`. -/
def present : Option JsVal → Bool
  | some .null => false
  | some .undefined => false
  | none => false
  | some _ => true

/-- Whether the value is an object with the own property `key`. -/
def hasKey (v : JsVal) (key : JsString) : Bool := (field v key).isSome

/-- The property `feedback.improvements` of a result. -/
def improvementsOf (r : JsVal) : Option JsVal :=
  (field r (units "feedback")).bind (fun f => field f (units "improvements"))

/-- Every key of the result shape is there: `improvedCode`, the six keys of `feedback`, the
four keys of `statistics`, `analysisTime` and `aiEnabled`. -/
def fullyPopulated (r : JsVal) : Bool :=
  hasKey r (units "improvedCode") &&
  (match field r (units "feedback") with
    | some f =>
      hasKey f (units "overall") && hasKey f (units "strengths") &&
      hasKey f (units "improvements") && hasKey f (units "bestPractices") &&
      hasKey f (units "security") && hasKey f (units "performance")
    | none => false) &&
  (match field r (units "statistics") with
    | some s =>
      hasKey s (units "complexity") && hasKey s (units "readability") &&
      hasKey s (units "maintainability") && hasKey s (units "efficiency")
    | none => false) &&
  hasKey r (units "analysisTime") && hasKey r (units "aiEnabled")

/-- The reply text wrapped in a fence that names JSON. -/
def fencedJson (text : JsString) : JsString := units "```json\n" ++ text ++ units "\n```"

/-- The reply text wrapped in a bare fence. -/
def fencedBare (text : JsString) : JsString := units "```\n" ++ text ++ units "\n```"

/-- The text of a duration of `n` hundredths of a second, two decimals and the unit: what
`analysisTime` looks like for a duration that is not negative. -/
def durationText (n : Nat) : JsString :=
  decimal (n / 100) ++ [46, 48 + n % 100 / 10, 48 + n % 10] ++ units "s"

/-- A reply in the full shape whose `improvedCode` holds code-fence markup. -/
def fencedCodeReply : JsString := units (
    "\x7b\"improvedCode\":\"a ```b```\",\"feedback\":\x7b\"overall\":\"o\",\"strengths\":[],\"" ++
    "improvements\":[],\"bestPractices\":[],\"security\":[],\"performance\":[]\x7d,\"s" ++
    "tatistics\":\x7b\"complexity\":\"laag\",\"readability\":\"8\",\"maintainability\":\"8" ++
    "\",\"efficiency\":\"8\"\x7d\x7d")

/-- A reply in the full shape, free of code-fence markup. -/
def plainReply : JsString := units (
    "\x7b\"improvedCode\":\"const x = 1;\",\"feedback\":\x7b\"overall\":\"o\",\"strengths\":[" ++
    "],\"improvements\":[\"i\"],\"bestPractices\":[],\"security\":[],\"performance\":" ++
    "[]\x7d,\"statistics\":\x7b\"complexity\":\"laag\",\"readability\":\"8\",\"maintainabili" ++
    "ty\":\"8\",\"efficiency\":\"8\"\x7d\x7d")

/-- The value of `plainReply`. -/
def plainValue : JsVal :=
  .obj [
    (units "improvedCode", .str (units "const x = 1;")),
    (units "feedback", .obj [
      (units "overall", .str (units "o")),
      (units "strengths", .arr []),
      (units "improvements", .arr [.str (units "i")]),
      (units "bestPractices", .arr []),
      (units "security", .arr []),
      (units "performance", .arr [])]),
    (units "statistics", .obj [
      (units "complexity", .str (units "laag")),
      (units "readability", .str (units "8")),
      (units "maintainability", .str (units "8")),
      (units "efficiency", .str (units "8"))])]

/-- A reply that is a JSON object with `statistics` and `feedback.improvements` only. -/
def sparseReply : JsString := units (
    "\x7b\"statistics\":\x7b\x7d,\"feedback\":\x7b\"improvements\":[]\x7d\x7d")

/-- A reply with the three top-level keys, its `feedback` and `statistics` empty. -/
def thinReply : JsString :=
  units "\x7b\"improvedCode\":\"x\",\"feedback\":\x7b\x7d,\"statistics\":\x7b\x7d\x7d"

/-- A clock whose second reading is 1500 milliseconds before the first. -/
def steppedBackClock : Clock := ⟨5000, 3500, fun ms => (ms + 5) / 10⟩

/-! ## The name of an uploaded file -/

/-- The character class `[a-zA-Z0-9.\-_]` of the storage callback: the code units its
negation `[^a-zA-Z0-9.\-_]` does not match. -/
def isAllowedUnit (c : Nat) : Bool :=
  (97 ≤ c && c ≤ 122) || (65 ≤ c && c ≤ 90) || (48 ≤ c && c ≤ 57) ||
  c == 46 || c == 45 || c == 95

/-- The regular expression `/[^a-zA-Z0-9.\-_]/` tried at the head of `s`: it matches one code
unit, any that is outside the class (the expression has no `u` flag, so each half of a
surrogate pair is a character of its own). -/
def matchDisallowed (s : JsString) : Option Nat :=
  match s with
  | [] => none
  | c :: _ => if isAllowedUnit c then none else some 1

/-- The call `s.replace(re, rep)` for a global regular expression `re`, given by its matcher at
the head of a string, and a replacement text `rep` without `$`: scan from the left, put `rep`
for every match, resume right after it. The third argument counts the code units of the
current match still to drop. -/
def substituteAll (matchAt : JsString → Option Nat) (rep : JsString) :
    Nat → JsString → JsString
  | _, [] => []
  | k + 1, _ :: cs => substituteAll matchAt rep k cs
  | 0, c :: cs =>
    match matchAt (c :: cs) with
    | some (n + 1) => rep ++ substituteAll matchAt rep n cs
    | _ => c :: substituteAll matchAt rep 0 cs

/-- The constant `sanitizedName` of the `filename` callback of the multer storage:
`file.originalname.replace(/[^a-zA-Z0-9.\-_]/g, '_')`. -/
def sanitizedName (originalname : JsString) : JsString :=
  substituteAll matchDisallowed (units "_") 0 originalname

/-- The name the `filename` callback hands to `cb`: `Date.now() + '-' + sanitizedName`, for
the clock reading `now` (milliseconds). -/
def storageFilename (now : Int) (originalname : JsString) : JsString :=
  (if now < 0 then [45] else []) ++ decimal now.natAbs ++ units "-" ++
    sanitizedName originalname

/-! ## Control flow of the orchestrator -/

theorem fallback_eq (code fileName language targetLanguage : JsString) :
    fallback code fileName language targetLanguage =
      .ok (generateMockAnalysis code fileName language targetLanguage) := rfl

/-- The reads of a `catch` block raise on `null` and `undefined` only. -/
theorem readThrown_ok (e : Thrown) (key : JsString) (h : isNullish e = false) :
    readThrown e key = .ok () := by
  cases e with
  | typeError => rfl
  | jsonError => rfl
  | clientError message status => rfl
  | value v =>
    cases v with
    | undefined => cases h
    | null => cases h
    | bool b => rfl
    | num n => rfl
    | str s => rfl
    | arr items => rfl
    | obj fs => rfl

theorem readThrown_nullish (e : Thrown) (key : JsString) (h : isNullish e = true) :
    readThrown e key = .error .typeError := by
  cases e with
  | typeError => cases h
  | jsonError => cases h
  | clientError message status => cases h
  | value v => cases v <;> first | rfl | cases h

theorem catchAll_ok (e : Thrown) (code fileName language targetLanguage : JsString)
    (h : isNullish e = false) :
    catchAll e code fileName language targetLanguage =
      .ok (generateMockAnalysis code fileName language targetLanguage) := by
  simp only [catchAll, bind, Except.bind, readThrown_ok e _ h, fallback_eq]

theorem catchAll_nullish (e : Thrown) (code fileName language targetLanguage : JsString)
    (h : isNullish e = true) :
    catchAll e code fileName language targetLanguage = .error .typeError := by
  simp only [catchAll, bind, Except.bind, readThrown_nullish e _ h]

theorem catchParse_ok (e : Thrown) (code fileName language targetLanguage : JsString)
    (h : isNullish e = false) :
    catchParse e code fileName language targetLanguage =
      .ok (generateMockAnalysis code fileName language targetLanguage) := by
  simp only [catchParse, bind, Except.bind, readThrown_ok e _ h, fallback_eq]

theorem analyze_unconfigured (cfg : Config) (clock : Clock)
    (code fileName language targetLanguage : JsString)
    (h : cfg.aiClient = none ∨ cfg.aiEnabled = false) :
    analyzeCodeWithAI cfg clock code fileName language targetLanguage =
      ⟨.resolved (generateMockAnalysis code fileName language targetLanguage), []⟩ := by
  unfold analyzeCodeWithAI
  rcases h with h | h
  · rw [h]
  · rw [h]
    cases cfg.aiClient <;> rfl

theorem analyze_configured (cfg : Config) (client : AiClient) (clock : Clock)
    (code fileName language targetLanguage : JsString) (outcome : ClientOutcome)
    (hc : cfg.aiClient = some client) (he : cfg.aiEnabled = true)
    (hcall : client [] (chatRequest cfg code fileName language targetLanguage) = some outcome) :
    analyzeCodeWithAI cfg clock code fileName language targetLanguage =
      ⟨(match handleOutcome clock outcome code fileName language targetLanguage with
        | .ok result => .resolved result
        | .error error => settle (catchAll error code fileName language targetLanguage)),
       [chatRequest cfg code fileName language targetLanguage]⟩ := by
  unfold analyzeCodeWithAI
  rw [hc, he]
  simp only [create, hcall, List.nil_append]
  cases handleOutcome clock outcome code fileName language targetLanguage <;> rfl

theorem analyze_pending (cfg : Config) (client : AiClient) (clock : Clock)
    (code fileName language targetLanguage : JsString)
    (hc : cfg.aiClient = some client) (he : cfg.aiEnabled = true)
    (hcall : client [] (chatRequest cfg code fileName language targetLanguage) = none) :
    analyzeCodeWithAI cfg clock code fileName language targetLanguage =
      ⟨.pending, [chatRequest cfg code fileName language targetLanguage]⟩ := by
  unfold analyzeCodeWithAI
  rw [hc, he]
  simp only [create, hcall, List.nil_append]

theorem handleOutcome_raised (clock : Clock) (e : Thrown)
    (code fileName language targetLanguage : JsString) :
    handleOutcome clock (.raised e) code fileName language targetLanguage = .error e := rfl

theorem handleOutcome_text (clock : Clock) (completion : JsVal) (reply : JsString)
    (code fileName language targetLanguage : JsString)
    (hread : readContent completion = .ok (.str reply)) :
    handleOutcome clock (.returned completion) code fileName language targetLanguage =
      (match parseReply (.str reply)
          (toFixed2 clock.hundredths (clock.endTime - clock.startTime) ++ units "s") with
        | .ok result => .ok result
        | .error parseError => catchParse parseError code fileName language targetLanguage) := by
  simp only [handleOutcome, bind, Except.bind, hread, getProp, pure, Except.pure]

theorem parseReply_error (reply analysisTime : JsString) (e : Thrown)
    (h : extractJson reply = .error e) :
    parseReply (.str reply) analysisTime = .error e := by
  simp only [parseReply, bind, Except.bind, h]

theorem extractJson_error (reply : JsString) (e : Thrown)
    (h : extractJson reply = .error e) : e = .jsonError := by
  unfold extractJson JSON.parse at h
  split at h
  · cases h
  · cases h
    rfl

/-- A client that rejects with a value other than `null` and `undefined`: the outer `catch`
returns the placeholder. -/
theorem analyze_client_error (cfg : Config) (client : AiClient) (clock : Clock)
    (code fileName language targetLanguage : JsString) (e : Thrown)
    (hc : cfg.aiClient = some client) (he : cfg.aiEnabled = true)
    (hcall : client [] (chatRequest cfg code fileName language targetLanguage) =
      some (.raised e))
    (herr : isNullish e = false) :
    analyzeCodeWithAI cfg clock code fileName language targetLanguage =
      ⟨.resolved (generateMockAnalysis code fileName language targetLanguage),
       [chatRequest cfg code fileName language targetLanguage]⟩ := by
  rw [analyze_configured cfg client clock code fileName language targetLanguage _ hc he hcall,
    handleOutcome_raised]
  simp only [catchAll_ok e code fileName language targetLanguage herr]
  rfl

theorem analyze_parse_failure (cfg : Config) (client : AiClient) (clock : Clock)
    (code fileName language targetLanguage : JsString) (completion : JsVal)
    (reply : JsString) (e : Thrown)
    (hc : cfg.aiClient = some client) (he : cfg.aiEnabled = true)
    (hcall : client [] (chatRequest cfg code fileName language targetLanguage) =
      some (.returned completion))
    (hread : readContent completion = .ok (.str reply))
    (hparse : extractJson reply = .error e) :
    analyzeCodeWithAI cfg clock code fileName language targetLanguage =
      ⟨.resolved (generateMockAnalysis code fileName language targetLanguage),
       [chatRequest cfg code fileName language targetLanguage]⟩ := by
  have hj := extractJson_error reply e hparse
  subst hj
  rw [analyze_configured cfg client clock code fileName language targetLanguage _ hc he hcall,
    handleOutcome_text clock completion reply code fileName language targetLanguage hread,
    parseReply_error reply _ _ hparse]
  rfl

theorem mock_aiEnabled (code fileName language targetLanguage : JsString) :
    field (generateMockAnalysis code fileName language targetLanguage) (units "aiEnabled") =
      some (.bool false) := rfl

theorem mock_overall (code fileName language targetLanguage : JsString) :
    overallOf (generateMockAnalysis code fileName language targetLanguage) =
      some (.str (if language = units "en"
        then units "This is a demo analysis. Configure Groq API for detailed code reviews."
        else units
          "Dit is een demo analyse. Configureer Groq API voor gedetailleerde code reviews.")) := by
  by_cases h : language = units "en"
  · subst h
    rfl
  · have hd : decide (language = units "en") = false := decide_eq_false h
    simp only [generateMockAnalysis, hd, h, if_false]
    rfl

/-! ## Lists of code units -/

theorem dropWhile_skip (p : Nat → Bool) (pre : List Nat) (x : Nat) (rest : List Nat)
    (hpre : ∀ c ∈ pre, p c = true) (hx : p x = false) :
    (pre ++ x :: rest).dropWhile p = x :: rest := by
  induction pre with
  | nil => simp [List.dropWhile, hx]
  | cons a pre ih =>
    have ha : p a = true := hpre a (List.mem_cons_self a pre)
    simp only [List.cons_append, List.dropWhile, ha]
    exact ih (fun c hc => hpre c (List.mem_cons_of_mem a hc))

theorem rdropWhile_skip (p : Nat → Bool) (l : List Nat) (x : Nat) (post : List Nat)
    (hpost : ∀ c ∈ post, p c = true) (hx : p x = false) :
    (l ++ x :: post).rdropWhile p = l ++ [x] := by
  unfold List.rdropWhile
  rw [List.reverse_append, List.reverse_cons, List.append_assoc, List.singleton_append,
    dropWhile_skip p post.reverse x l.reverse (fun c hc => hpost c (List.mem_reverse.mp hc)) hx]
  simp

theorem takeWhile_skip (p : Nat → Bool) (pre : List Nat) (x : Nat) (rest : List Nat)
    (hpre : ∀ c ∈ pre, p c = true) (hx : p x = false) :
    (pre ++ x :: rest).takeWhile p = pre := by
  induction pre with
  | nil => simp [List.takeWhile, hx]
  | cons a pre ih =>
    have ha : p a = true := hpre a (List.mem_cons_self a pre)
    simp only [List.cons_append, List.takeWhile, ha]
    exact congrArg (List.cons a) (ih (fun c hc => hpre c (List.mem_cons_of_mem a hc)))

theorem braceSpan_eq (pre mid post : JsString) (hfirst : 123 ∉ pre) (hlast : 125 ∉ post) :
    braceSpan (pre ++ 123 :: (mid ++ 125 :: post)) = some (123 :: (mid ++ [125])) := by
  unfold braceSpan
  rw [dropWhile_skip (fun c => c != 123) pre 123 (mid ++ 125 :: post)
    (fun c hc => by
      have : c ≠ 123 := fun h => hfirst (h ▸ hc)
      simpa using this) (by simp)]
  simp only
  rw [if_pos (by simp), rdropWhile_skip (fun c => c != 125) mid 125 post
    (fun c hc => by
      have : c ≠ 125 := fun h => hlast (h ▸ hc)
      simpa using this) (by simp)]

theorem decimalAux_value (fuel : Nat) :
    ∀ n acc, n < 10 ^ fuel →
      (decimalAux fuel n acc).foldl (fun a d => 10 * a + (d - 48)) 0 =
        acc.foldl (fun a d => 10 * a + (d - 48)) n := by
  induction fuel with
  | zero =>
    intro n acc h
    have hn : n = 0 := by simpa using h
    subst hn
    rfl
  | succ fuel ih =>
    intro n acc h
    unfold decimalAux
    by_cases h10 : n < 10
    · rw [if_pos h10]
      simp
    · rw [if_neg h10, ih (n / 10) _ (by
        rw [Nat.div_lt_iff_lt_mul (by decide)]
        rw [pow_succ] at h
        exact h)]
      simp only [List.foldl_cons]
      congr 1
      omega

/-- The digits of `decimal n` read back as `n`: the fuel of the worker is enough. -/
theorem decimal_value (n : Nat) :
    (decimal n).foldl (fun a d => 10 * a + (d - 48)) 0 = n := by
  unfold decimal
  rw [decimalAux_value (n + 1) n [] (Nat.lt_of_lt_of_le (Nat.lt_pow_self (by decide) n)
    (Nat.pow_le_pow_right (by decide) (Nat.le_succ n)))]
  rfl

/-! ## The recogniser -/

theorem complete_eq_done (stack : List Frame) (v w : JsVal)
    (h : complete stack v = ⟨[], .done w⟩) : stack = [] ∧ v = w := by
  cases stack with
  | nil =>
    unfold complete at h
    cases h
    exact ⟨rfl, rfl⟩
  | cons f rest => cases f <;> cases h

theorem startValue_ne_done (stack s : List Frame) (c : Nat) (v : JsVal) :
    startValue stack c ≠ some ⟨s, .done v⟩ := by
  intro h
  unfold startValue at h
  split_ifs at h <;> cases h

theorem afterValue_to_done_obj (st : PState) (c : Nat) (kvs : List (JsString × JsVal))
    (h : afterValue st c = some ⟨[], .done (.obj kvs)⟩) :
    c = 125 ∨ (isJsonSpace c = true ∧ st = ⟨[], .done (.obj kvs)⟩) := by
  unfold afterValue at h
  by_cases hs : isJsonSpace c = true
  · rw [if_pos hs] at h
    exact Or.inr ⟨hs, Option.some.inj h⟩
  · rw [if_neg hs] at h
    left
    obtain ⟨stack, mode⟩ := st
    rcases stack with _ | ⟨f, rest⟩
    · cases h
    · cases f with
      | arr items =>
        simp only at h
        by_cases h1 : c = 44
        · rw [if_pos h1] at h
          cases h
        · rw [if_neg h1] at h
          by_cases h2 : c = 93
          · rw [if_pos h2] at h
            have := (complete_eq_done _ _ _ (Option.some.inj h)).2
            cases this
          · rw [if_neg h2] at h
            cases h
      | obj fields key =>
        simp only at h
        by_cases h1 : c = 44
        · rw [if_pos h1] at h
          cases h
        · rw [if_neg h1] at h
          by_cases h2 : c = 125
          · exact h2
          · rw [if_neg h2] at h
            cases h

theorem step_to_done_obj (st : PState) (c : Nat) (kvs : List (JsString × JsVal))
    (hlit : ∀ r v, st.mode = .lit r v → ∀ fs, v ≠ .obj fs)
    (h : step st c = some ⟨[], .done (.obj kvs)⟩) :
    c = 125 ∨ (isJsonSpace c = true ∧ st = ⟨[], .done (.obj kvs)⟩) := by
  obtain ⟨stack, mode⟩ := st
  by_cases h125 : c = 125
  · exact Or.inl h125
  cases mode with
  | value =>
    simp only [step] at h
    split_ifs at h
    · cases h
    · exact absurd h (startValue_ne_done _ _ _ _)
  | arrStart =>
    simp only [step] at h
    split_ifs at h
    · cases h
    · rcases stack with _ | ⟨f, rest⟩
      · cases h
      · cases f with
        | arr items =>
          have := (complete_eq_done _ _ _ (Option.some.inj h)).2
          cases this
        | obj fields key => cases h
    · exact absurd h (startValue_ne_done _ _ _ _)
  | objStart =>
    simp only [step] at h
    split_ifs at h <;> cases h
  | key =>
    simp only [step] at h
    split_ifs at h <;> cases h
  | colon =>
    simp only [step] at h
    split_ifs at h <;> cases h
  | str isKey acc =>
    simp only [step, endString] at h
    split_ifs at h
    · rcases stack with _ | ⟨f, rest⟩
      · cases h
      · cases f <;> cases h
    · have := (complete_eq_done _ _ _ (Option.some.inj h)).2
      cases this
    · cases h
    · cases h
  | esc isKey acc =>
    simp only [step] at h
    split at h
    · cases h
    · split_ifs at h
      cases h
  | hex isKey acc n v =>
    simp only [step] at h
    split at h
    · split_ifs at h <;> cases h
    · cases h
  | num literal ph =>
    simp only [step] at h
    split at h
    · cases h
    · split_ifs at h
      rcases afterValue_to_done_obj _ c kvs h with h1 | ⟨_, h2⟩
      · exact Or.inl h1
      · have := (complete_eq_done _ _ _ h2).2
        cases this
  | lit rest v =>
    simp only [step] at h
    split at h
    · cases h
    · split_ifs at h
      have := (complete_eq_done _ _ _ (Option.some.inj h)).2
      exact absurd this (hlit _ _ rfl kvs)
    · split_ifs at h
      cases h
  | after => exact afterValue_to_done_obj _ c kvs h
  | done v => exact afterValue_to_done_obj _ c kvs h

theorem arrRooted_push {stack : List Frame} (f : Frame) (h : ArrRooted stack) :
    ArrRooted (f :: stack) := by
  obtain ⟨top, items, rfl⟩ := h
  exact ⟨f :: top, items, rfl⟩

theorem arrRooted_pop {f : Frame} {rest : List Frame} (h : ArrRooted (f :: rest)) :
    (rest = [] ∧ ∃ items, f = .arr items) ∨ ArrRooted rest := by
  obtain ⟨top, items, he⟩ := h
  cases top with
  | nil =>
    left
    simp only [List.nil_append, List.cons.injEq] at he
    exact ⟨he.2, items, he.1⟩
  | cons g top =>
    right
    simp only [List.cons_append, List.cons.injEq] at he
    exact ⟨top, items, he.2⟩

theorem arrRooted_retop {f g : Frame} {rest : List Frame} (h : ArrRooted (f :: rest))
    (hg : ∀ items, f = .arr items → ∃ items', g = .arr items') : ArrRooted (g :: rest) := by
  rcases arrRooted_pop h with ⟨hr, items, hf⟩ | hr
  · obtain ⟨items', rfl⟩ := hg items hf
    exact ⟨[], items', by rw [hr]; rfl⟩
  · exact arrRooted_push g hr

theorem arrRooted_complete {stack : List Frame} (v : JsVal) (h : ArrRooted stack) :
    ArrRooted (complete stack v).stack := by
  cases stack with
  | nil =>
    obtain ⟨top, items, he⟩ := h
    cases top <;> cases he
  | cons f rest =>
    cases f with
    | arr items => exact arrRooted_retop h (fun _ _ => ⟨_, rfl⟩)
    | obj fields key => exact arrRooted_retop h (fun _ hf => by cases hf)

theorem noObj_close_arr {items : List JsVal} {rest : List Frame}
    (h : ArrRooted (.arr items :: rest)) : NoObj (complete rest (.arr items)) := by
  rcases arrRooted_pop h with ⟨hr, _⟩ | hr
  · subst hr
    right
    exact ⟨rfl, fun fs hfs => by cases hfs⟩
  · exact Or.inl (arrRooted_complete _ hr)

theorem noObj_close_obj {fields : List (JsString × JsVal)} {key : JsString}
    {rest : List Frame} (h : ArrRooted (.obj fields key :: rest)) :
    NoObj (complete rest (.obj fields)) := by
  rcases arrRooted_pop h with ⟨_, items, hf⟩ | hr
  · cases hf
  · exact Or.inl (arrRooted_complete _ hr)

theorem noObj_rooted {stack : List Frame} {mode : Mode} (h : NoObj ⟨stack, mode⟩)
    (hm : ¬ Scalar mode) : ArrRooted stack := by
  rcases h with h | ⟨_, h⟩
  · exact h
  · exact absurd h hm

theorem noObj_same {stack : List Frame} {mode : Mode} (m : Mode) (h : NoObj ⟨stack, mode⟩)
    (hm : Scalar m) : NoObj ⟨stack, m⟩ := by
  rcases h with h | ⟨h, _⟩
  · exact Or.inl h
  · exact Or.inr ⟨h, hm⟩

theorem startValue_rooted (stack : List Frame) (c : Nat) (st' : PState)
    (hr : ArrRooted stack) (h : startValue stack c = some st') : ArrRooted st'.stack := by
  unfold startValue at h
  split_ifs at h <;> cases h <;> first | exact arrRooted_push _ hr | exact hr

theorem noObj_afterValue (st st' : PState) (c : Nat) (hno : NoObj st)
    (h : afterValue st c = some st') : NoObj st' := by
  unfold Codereviewer.afterValue at h
  by_cases hs : isJsonSpace c = true
  · rw [if_pos hs] at h
    cases h
    exact hno
  · rw [if_neg hs] at h
    obtain ⟨stack, mode⟩ := st
    rcases stack with _ | ⟨f, rest⟩
    · cases h
    · have hr : ArrRooted (f :: rest) := by
        rcases hno with hno | ⟨hno, _⟩
        · exact hno
        · cases hno
      cases f with
      | arr items =>
        simp only at h
        split_ifs at h
        · cases h
          exact Or.inl hr
        · cases h
          exact noObj_close_arr hr
      | obj fields key =>
        simp only at h
        split_ifs at h
        · cases h
          exact Or.inl hr
        · cases h
          exact noObj_close_obj hr

theorem noObj_step (st st' : PState) (c : Nat) (hno : NoObj st)
    (h : step st c = some st') : NoObj st' := by
  obtain ⟨stack, mode⟩ := st
  cases mode with
  | value =>
    have hr : ArrRooted stack := noObj_rooted hno (fun hf => hf)
    simp only [Codereviewer.step] at h
    split_ifs at h
    · cases h
      exact hno
    · exact Or.inl (startValue_rooted _ _ _ hr h)
  | arrStart =>
    have hr : ArrRooted stack := noObj_rooted hno (fun hf => hf)
    simp only [Codereviewer.step] at h
    split_ifs at h
    · cases h
      exact hno
    · rcases stack with _ | ⟨f, rest⟩
      · cases h
      · cases f with
        | arr items =>
          cases h
          exact noObj_close_arr hr
        | obj fields key => cases h
    · exact Or.inl (startValue_rooted _ _ _ hr h)
  | objStart =>
    have hr : ArrRooted stack := noObj_rooted hno (fun hf => hf)
    simp only [Codereviewer.step] at h
    split_ifs at h
    · cases h
      exact hno
    · rcases stack with _ | ⟨f, rest⟩
      · cases h
      · cases f with
        | arr items => cases h
        | obj fields key =>
          cases h
          exact noObj_close_obj hr
    · cases h
      exact Or.inl hr
  | key =>
    have hr : ArrRooted stack := noObj_rooted hno (fun hf => hf)
    simp only [Codereviewer.step] at h
    split_ifs at h <;> cases h
    · exact hno
    · exact Or.inl hr
  | colon =>
    have hr : ArrRooted stack := noObj_rooted hno (fun hf => hf)
    simp only [Codereviewer.step] at h
    split_ifs at h <;> cases h
    · exact hno
    · exact Or.inl hr
  | str isKey acc =>
    simp only [Codereviewer.step, endString] at h
    split_ifs at h
    · rcases stack with _ | ⟨f, rest⟩
      · cases h
      · cases f with
        | arr items => cases h
        | obj fields key =>
          cases h
          rcases hno with hno | ⟨hno, _⟩
          · exact Or.inl (arrRooted_retop hno (fun _ hf => by cases hf))
          · cases hno
    · cases h
      rcases hno with hno | ⟨hno, _⟩
      · exact Or.inl (arrRooted_complete _ hno)
      · simp only at hno
        subst hno
        exact Or.inr ⟨rfl, fun fs hfs => by cases hfs⟩
    · cases h
      exact noObj_same _ hno trivial
    · cases h
      exact noObj_same _ hno trivial
  | esc isKey acc =>
    simp only [Codereviewer.step] at h
    split at h
    · cases h
      exact noObj_same _ hno trivial
    · split_ifs at h
      cases h
      exact noObj_same _ hno trivial
  | hex isKey acc n v =>
    simp only [Codereviewer.step] at h
    split at h
    · split_ifs at h <;> cases h <;> exact noObj_same _ hno trivial
    · cases h
  | num literal ph =>
    simp only [Codereviewer.step] at h
    split at h
    · cases h
      rcases hno with hno | ⟨hno, _⟩
      · exact Or.inl hno
      · exact Or.inr ⟨hno, trivial⟩
    · split_ifs at h
      refine noObj_afterValue _ _ c ?_ h
      rcases hno with hno | ⟨hno, _⟩
      · exact Or.inl (arrRooted_complete _ hno)
      · simp only at hno
        subst hno
        exact Or.inr ⟨rfl, fun fs hfs => by cases hfs⟩
  | lit rest v =>
    simp only [Codereviewer.step] at h
    split at h
    · cases h
    · split_ifs at h
      cases h
      rcases hno with hno | ⟨hno, hv⟩
      · exact Or.inl (arrRooted_complete _ hno)
      · simp only at hno
        subst hno
        exact Or.inr ⟨rfl, hv⟩
    · split_ifs at h
      cases h
      rcases hno with hno | ⟨hno, hv⟩
      · exact Or.inl hno
      · exact Or.inr ⟨hno, hv⟩
  | after => exact noObj_afterValue _ _ c hno h
  | done v => exact noObj_afterValue _ _ c hno h

theorem litOk_complete (stack : List Frame) (v : JsVal) : LitOk (complete stack v) := by
  intro r w hm
  cases stack with
  | nil => cases hm
  | cons f rest => cases f <;> cases hm

theorem litOk_afterValue (st st' : PState) (c : Nat) (hok : LitOk st)
    (h : afterValue st c = some st') : LitOk st' := by
  unfold Codereviewer.afterValue at h
  by_cases hs : isJsonSpace c = true
  · rw [if_pos hs] at h
    cases h
    exact hok
  · rw [if_neg hs] at h
    obtain ⟨stack, mode⟩ := st
    rcases stack with _ | ⟨f, rest⟩
    · cases h
    · cases f with
      | arr items =>
        simp only at h
        split_ifs at h
        · cases h
          intro r w hm
          cases hm
        · cases h
          exact litOk_complete _ _
      | obj fields key =>
        simp only at h
        split_ifs at h
        · cases h
          intro r w hm
          cases hm
        · cases h
          exact litOk_complete _ _

theorem litOk_startValue (stack : List Frame) (c : Nat) (st' : PState)
    (h : startValue stack c = some st') : LitOk st' := by
  unfold Codereviewer.startValue at h
  split_ifs at h <;> cases h <;> intro r w hm <;> cases hm <;> intro fs hfs <;> cases hfs

theorem litOk_step (st st' : PState) (c : Nat) (hok : LitOk st)
    (h : step st c = some st') : LitOk st' := by
  obtain ⟨stack, mode⟩ := st
  cases mode with
  | value =>
    simp only [Codereviewer.step] at h
    split_ifs at h
    · cases h
      exact hok
    · exact litOk_startValue _ _ _ h
  | arrStart =>
    simp only [Codereviewer.step] at h
    split_ifs at h
    · cases h
      exact hok
    · rcases stack with _ | ⟨f, rest⟩
      · cases h
      · cases f with
        | arr items =>
          cases h
          exact litOk_complete _ _
        | obj fields key => cases h
    · exact litOk_startValue _ _ _ h
  | objStart =>
    simp only [Codereviewer.step] at h
    split_ifs at h
    · cases h
      exact hok
    · rcases stack with _ | ⟨f, rest⟩
      · cases h
      · cases f with
        | arr items => cases h
        | obj fields key =>
          cases h
          exact litOk_complete _ _
    · cases h
      intro r w hm
      cases hm
  | key =>
    simp only [Codereviewer.step] at h
    split_ifs at h <;> cases h <;> intro r w hm <;> cases hm
  | colon =>
    simp only [Codereviewer.step] at h
    split_ifs at h <;> cases h <;> intro r w hm <;> cases hm
  | str isKey acc =>
    simp only [Codereviewer.step, endString] at h
    split_ifs at h
    · rcases stack with _ | ⟨f, rest⟩
      · cases h
      · cases f with
        | arr items => cases h
        | obj fields key =>
          cases h
          intro r w hm
          cases hm
    · cases h
      exact litOk_complete _ _
    · cases h
      intro r w hm
      cases hm
    · cases h
      intro r w hm
      cases hm
  | esc isKey acc =>
    simp only [Codereviewer.step] at h
    split at h
    · cases h
      intro r w hm
      cases hm
    · split_ifs at h
      cases h
      intro r w hm
      cases hm
  | hex isKey acc n v =>
    simp only [Codereviewer.step] at h
    split at h
    · split_ifs at h <;> cases h <;> intro r w hm <;> cases hm
    · cases h
  | num literal ph =>
    simp only [Codereviewer.step] at h
    split at h
    · cases h
      intro r w hm
      cases hm
    · split_ifs at h
      exact litOk_afterValue _ _ c (litOk_complete _ _) h
  | lit rest v =>
    simp only [Codereviewer.step] at h
    split at h
    · cases h
    · split_ifs at h
      cases h
      exact litOk_complete _ _
    · split_ifs at h
      cases h
      intro r w hm
      cases hm
      exact hok _ _ rfl
  | after => exact litOk_afterValue _ _ c hok h
  | done v => exact litOk_afterValue _ _ c hok h

theorem run_cons (st : PState) (c : Nat) (cs : JsString) :
    run st (c :: cs) = (step st c).bind (fun st' => run st' cs) := by
  cases h : step st c <;> simp [run, h]

theorem noObj_run (s : JsString) :
    ∀ st st', NoObj st → Codereviewer.run st s = some st' → NoObj st' := by
  induction s with
  | nil =>
    intro st st' hno h
    cases h
    exact hno
  | cons c s ih =>
    intro st st' hno h
    rw [run_cons] at h
    cases hs : Codereviewer.step st c with
    | none => rw [hs] at h; cases h
    | some st1 =>
      rw [hs] at h
      exact ih st1 st' (noObj_step st st1 c hno hs) h

theorem run_to_done_obj (kvs : List (JsString × JsVal)) (s : JsString) :
    ∀ st, LitOk st → run st s = some ⟨[], .done (.obj kvs)⟩ →
      (st = ⟨[], .done (.obj kvs)⟩ ∧ ∀ c ∈ s, isJsonSpace c = true) ∨
      ∃ s1 tws, s = s1 ++ 125 :: tws ∧ (∀ c ∈ tws, isJsonSpace c = true) ∧
        run st (s1 ++ [125]) = some ⟨[], .done (.obj kvs)⟩ := by
  induction s with
  | nil =>
    intro st _ h
    cases h
    exact Or.inl ⟨rfl, fun c hc => by cases hc⟩
  | cons c s ih =>
    intro st hok h
    rw [run_cons] at h
    cases hs : step st c with
    | none => rw [hs] at h; cases h
    | some st1 =>
      rw [hs] at h
      rcases ih st1 (litOk_step st st1 c hok hs) h with ⟨h1, hws⟩ | ⟨s1, tws, hs1, htws, hrun⟩
      · subst h1
        rcases step_to_done_obj st c kvs hok hs with hc | ⟨hc, hst⟩
        · right
          refine ⟨[], s, by rw [hc]; rfl, hws, ?_⟩
          rw [List.nil_append, run_cons, ← hc, hs]
          rfl
        · left
          refine ⟨hst, ?_⟩
          intro d hd
          rcases List.mem_cons.mp hd with rfl | hd
          · exact hc
          · exact hws d hd
      · right
        refine ⟨c :: s1, tws, by rw [hs1]; rfl, htws, ?_⟩
        rw [List.cons_append, run_cons, hs]
        exact hrun

theorem startValue_noObj (c : Nat) (st' : PState) (hc : c ≠ 123)
    (h : startValue [] c = some st') : NoObj st' := by
  unfold startValue at h
  split_ifs at h <;> cases h
  all_goals first
    | exact absurd ‹c = 123› hc
    | exact Or.inl ⟨[], [], rfl⟩
    | exact Or.inr ⟨rfl, trivial⟩
    | exact Or.inr ⟨rfl, fun fs hfs => by cases hfs⟩

theorem finish_eq_obj (st : PState) (kvs : List (JsString × JsVal))
    (h : finish st = some (.obj kvs)) : st = ⟨[], .done (.obj kvs)⟩ := by
  obtain ⟨stack, mode⟩ := st
  unfold finish at h
  split at h
  · rename_i hs hm
    simp only at hs hm
    cases h
    rw [hs, hm]
  · split_ifs at h
    cases h
  · cases h

theorem run_value_obj (kvs : List (JsString × JsVal)) (s : JsString)
    (h : run ⟨[], .value⟩ s = some ⟨[], .done (.obj kvs)⟩) :
    ∃ lws rest, s = lws ++ 123 :: rest ∧ (∀ c ∈ lws, isJsonSpace c = true) ∧
      run ⟨[.obj [] []], .objStart⟩ rest = some ⟨[], .done (.obj kvs)⟩ := by
  induction s with
  | nil => cases h
  | cons c s ih =>
    rw [run_cons] at h
    by_cases hs : isJsonSpace c = true
    · have hstep : step ⟨[], .value⟩ c = some ⟨[], .value⟩ := by
        simp only [step, if_pos hs]
      rw [hstep] at h
      obtain ⟨lws, rest, he, hl, hr⟩ := ih h
      refine ⟨c :: lws, rest, by rw [he]; rfl, ?_, hr⟩
      intro d hd
      rcases List.mem_cons.mp hd with rfl | hd
      · exact hs
      · exact hl d hd
    · have hstep : step ⟨[], .value⟩ c = startValue [] c := by
        simp only [step, if_neg hs]
      rw [hstep] at h
      by_cases hc : c = 123
      · subst hc
        exact ⟨[], s, rfl, fun c hc => (by cases hc), h⟩
      · cases hsv : startValue [] c with
        | none => rw [hsv] at h; cases h
        | some st1 =>
          rw [hsv] at h
          have hno := noObj_run s st1 _ (startValue_noObj c st1 hc hsv) h
          rcases hno with ⟨top, items, he⟩ | ⟨_, hsc⟩
          · cases top <;> cases he
          · exact absurd rfl (hsc kvs)

/-- A text that `JSON.parse` reads as an object is an opening brace, a body and a closing
brace, between JSON white space; the braces and the body alone give the same object. -/
theorem parse_obj_shape (s : JsString) (kvs : List (JsString × JsVal))
    (h : JSON.parse s = .ok (.obj kvs)) :
    ∃ lws mid tws, s = lws ++ 123 :: (mid ++ 125 :: tws) ∧
      (∀ c ∈ lws, isJsonSpace c = true) ∧ (∀ c ∈ tws, isJsonSpace c = true) ∧
      JSON.parse (123 :: (mid ++ [125])) = .ok (.obj kvs) := by
  unfold JSON.parse at h
  cases hr : run ⟨[], .value⟩ s with
  | none => rw [hr] at h; cases h
  | some st =>
    rw [hr] at h
    simp only [Option.bind] at h
    cases hf : finish st with
    | none => rw [hf] at h; cases h
    | some v =>
      rw [hf] at h
      cases h
      have hst := finish_eq_obj st kvs hf
      subst hst
      obtain ⟨lws, rest, he, hl, hrest⟩ := run_value_obj kvs s hr
      have hok : LitOk ⟨[.obj [] []], .objStart⟩ := fun r w hm => by cases hm
      rcases run_to_done_obj kvs rest _ hok hrest with ⟨h1, _⟩ | ⟨mid, tws, hm, ht, hrun⟩
      · cases h1
      · refine ⟨lws, mid, tws, by rw [he, hm], hl, ht, ?_⟩
        have hstep : step ⟨[], .value⟩ 123 = some ⟨[.obj [] []], .objStart⟩ := by decide
        unfold JSON.parse
        rw [run_cons, hstep]
        simp only [Option.bind]
        rw [hrun]
        rfl

/-- What `JSON.parse` accepts, on samples: nesting, escapes, numbers, literals, white space
between tokens, and a duplicate key (first position, last value). -/
theorem JSON_parse_accepts :
    JSON.parse (units " \x7b\"a\": [1, -2.5e+3, true, false, null, \"x\\n\\u0041\"], \"b\": \x7b\x7d \x7d\n") =
        .ok (.obj [
          (units "a", .arr [.num (units "1"), .num (units "-2.5e+3"), .bool true, .bool false,
            .null, .str [120, 10, 65]]),
          (units "b", .obj [])]) ∧
      JSON.parse (units "\x7b\"k\":1,\"l\":2,\"k\":3\x7d") =
        .ok (.obj [(units "k", .num (units "3")), (units "l", .num (units "2"))]) ∧
      JSON.parse (units "\"\\ud83d\"") = .ok (.str [55357]) ∧
      JSON.parse (units " 12 ") = .ok (.num (units "12")) := by
  decide

/-- What `JSON.parse` rejects, on samples: the empty text, prose, a trailing comma, a leading
zero, an unquoted key, a single-quoted string, a raw line feed inside a string, text after the
value, a no-break space outside a string. -/
theorem JSON_parse_rejects :
    JSON.parse [] = .error .jsonError ∧
      JSON.parse (units "I cannot comply") = .error .jsonError ∧
      JSON.parse (units "[1,]") = .error .jsonError ∧
      JSON.parse (units "\x7b\"a\":1,\x7d") = .error .jsonError ∧
      JSON.parse (units "01") = .error .jsonError ∧
      JSON.parse (units "\x7ba:1\x7d") = .error .jsonError ∧
      JSON.parse (units "'a'") = .error .jsonError ∧
      JSON.parse (units "\"a\nb\"") = .error .jsonError ∧
      JSON.parse (units "\x7b\x7d x") = .error .jsonError ∧
      JSON.parse [160, 123, 125] = .error .jsonError := by
  decide

/-! ## Removing the matches of a regular expression -/

theorem removeAll_none (m : JsString → Option Nat) (c : Nat) (cs : JsString)
    (h : m (c :: cs) = none) : removeAll m 0 (c :: cs) = c :: removeAll m 0 cs := by
  simp only [removeAll, h]

theorem removeAll_some (m : JsString → Option Nat) (c : Nat) (cs : JsString) (n : Nat)
    (h : m (c :: cs) = some (n + 1)) : removeAll m 0 (c :: cs) = removeAll m n cs := by
  simp only [removeAll, h]

/-- Dropping `k` code units one by one is resuming the scan `k` code units further. -/
theorem removeAll_drop (m : JsString → Option Nat) (s : JsString) :
    ∀ k, removeAll m k s = removeAll m 0 (s.drop k) := by
  induction s with
  | nil => intro k; cases k <;> rfl
  | cons c cs ih =>
    intro k
    cases k with
    | zero => rfl
    | succ k => exact ih k

theorem removeAll_skip (m : JsString → Option Nat) (pre s : JsString) :
    removeAll m pre.length (pre ++ s) = removeAll m 0 s := by
  induction pre with
  | nil => rfl
  | cons c pre ih => simpa [removeAll] using ih

theorem removeAll_all (m : JsString → Option Nat) (s : JsString) :
    removeAll m s.length s = [] := by
  induction s with
  | nil => rfl
  | cons c s ih => simpa [removeAll] using ih

theorem removeAll_copy (m : JsString → Option Nat) (pre s : JsString)
    (h : ∀ p1 c p2, pre = p1 ++ c :: p2 → m (c :: (p2 ++ s)) = none) :
    removeAll m 0 (pre ++ s) = pre ++ removeAll m 0 s := by
  induction pre with
  | nil => rfl
  | cons c pre ih =>
    rw [List.cons_append, removeAll_none m c (pre ++ s) (h [] c pre rfl), List.cons_append,
      ih (fun p1 d p2 he => h (c :: p1) d p2 (by rw [he]; rfl))]

theorem removeAll_barrier (m : JsString → Option Nat) (x : Nat) (hb : Barrier m x)
    (A : JsString) :
    ∀ k, k ≤ A.length → ∃ Z, ∀ B, removeAll m k (A ++ x :: B) = Z ++ x :: removeAll m 0 B := by
  induction A with
  | nil =>
    intro k hk
    have hk0 : k = 0 := Nat.le_zero.mp hk
    subst hk0
    exact ⟨[], fun B => by rw [List.nil_append, removeAll_none m x B (hb.1 B)]; rfl⟩
  | cons a A ih =>
    intro k hk
    cases k with
    | succ k =>
      obtain ⟨Z, hZ⟩ := ih k (Nat.le_of_succ_le_succ hk)
      exact ⟨Z, fun B => by rw [List.cons_append]; exact hZ B⟩
    | zero =>
      cases hm : m (a :: (A ++ [x])) with
      | none =>
        obtain ⟨Z, hZ⟩ := ih 0 (Nat.zero_le _)
        refine ⟨a :: Z, fun B => ?_⟩
        rw [List.cons_append, removeAll_none m a _ ((hb.2.1 a A B).trans hm), hZ B]
        rfl
      | some n =>
        cases n with
        | zero =>
          obtain ⟨Z, hZ⟩ := ih 0 (Nat.zero_le _)
          refine ⟨a :: Z, fun B => ?_⟩
          have hm' : m (a :: (A ++ x :: B)) = some 0 := (hb.2.1 a A B).trans hm
          rw [List.cons_append]
          simp only [removeAll, hm']
          rw [hZ B]
          rfl
        | succ n =>
          have hn : n ≤ A.length := Nat.le_of_succ_le_succ (hb.2.2 a A _ hm)
          obtain ⟨Z, hZ⟩ := ih n hn
          refine ⟨Z, fun B => ?_⟩
          rw [List.cons_append, removeAll_some m a _ n ((hb.2.1 a A B).trans hm), hZ B]

/-! ## The two fence expressions -/

theorem takeWhile_barrier (p : Nat → Bool) (A B : List Nat) (x : Nat) (hx : p x = false) :
    (A ++ x :: B).takeWhile p = A.takeWhile p := by
  induction A with
  | nil => simp [List.takeWhile, hx]
  | cons a A ih =>
    simp only [List.cons_append, List.takeWhile]
    cases p a with
    | true => exact congrArg (List.cons a) ih
    | false => rfl

theorem dropWhile_barrier (p : Nat → Bool) (A B : List Nat) (x : Nat) (hx : p x = false) :
    (A ++ x :: B).dropWhile p = A.dropWhile p ++ x :: B := by
  induction A with
  | nil => simp [List.dropWhile, hx]
  | cons a A ih =>
    simp only [List.cons_append, List.dropWhile]
    cases p a with
    | true => exact ih
    | false => rfl

theorem isPrefixOf_barrier (P : List Nat) (x : Nat) (hx : x ∉ P) :
    ∀ D B : List Nat, P.isPrefixOf (D ++ x :: B) = P.isPrefixOf (D ++ [x]) ∧
      (P.isPrefixOf (D ++ [x]) = true → P.length ≤ D.length) := by
  induction P with
  | nil =>
    intro D B
    exact ⟨by simp, fun _ => Nat.zero_le _⟩
  | cons p P ih =>
    intro D B
    have hpx : p ≠ x := fun h => hx (h ▸ List.mem_cons_self p P)
    have hxP : x ∉ P := fun h => hx (List.mem_cons_of_mem p h)
    have hb : (p == x) = false := by simpa using hpx
    cases D with
    | nil =>
      simp [List.isPrefixOf, hb]
    | cons d D =>
      obtain ⟨h1, h2⟩ := ih hxP D B
      show (p == d && P.isPrefixOf (D ++ x :: B)) = (p == d && P.isPrefixOf (D ++ [x])) ∧
        ((p == d && P.isPrefixOf (D ++ [x])) = true → (p :: P).length ≤ (d :: D).length)
      rw [h1]
      refine ⟨rfl, fun h => ?_⟩
      rw [Bool.and_eq_true] at h
      have := h2 h.2
      simp only [List.length_cons]
      omega

theorem isSpace_125 : isSpace 125 = false := by decide

theorem isSpace_123 : isSpace 123 = false := by decide

theorem isSpace_96 : isSpace 96 = false := by decide

theorem matchFenceJson_head (c : Nat) (s : JsString) (hc : c ≠ 96) :
    matchFenceJson (c :: s) = none := by
  have : (96 == c) = false := by simpa using fun h : 96 = c => hc h.symm
  simp [matchFenceJson, fenceJson, List.isPrefixOf, this]

theorem matchFenceJson_barrier : Barrier matchFenceJson 125 := by
  refine ⟨fun B => matchFenceJson_head 125 B (by decide), fun a A B => ?_, fun a A n h => ?_⟩
  · obtain ⟨h1, h2⟩ := isPrefixOf_barrier fenceJson 125 (by decide) (a :: A) B
    unfold matchFenceJson
    rw [← List.cons_append, ← List.cons_append, h1]
    by_cases hp : fenceJson.isPrefixOf (a :: A ++ [125]) = true
    · have hlen : 7 ≤ (a :: A).length := h2 hp
      rw [if_pos hp, if_pos hp, List.drop_append_of_le_length hlen,
        List.drop_append_of_le_length hlen, takeWhile_barrier isSpace _ B 125 isSpace_125,
        takeWhile_barrier isSpace _ [] 125 isSpace_125]
    · rw [if_neg hp, if_neg hp]
  · obtain ⟨_, h2⟩ := isPrefixOf_barrier fenceJson 125 (by decide) (a :: A) []
    unfold matchFenceJson at h
    rw [← List.cons_append] at h
    by_cases hp : fenceJson.isPrefixOf (a :: A ++ [125]) = true
    · have hlen : 7 ≤ (a :: A).length := h2 hp
      rw [if_pos hp, List.drop_append_of_le_length hlen,
        takeWhile_barrier isSpace _ [] 125 isSpace_125] at h
      cases h
      have h3 := (List.takeWhile_sublist isSpace (l := List.drop 7 (a :: A))).length_le
      rw [List.length_drop] at h3
      simp only [List.length_cons] at h3 hlen ⊢
      omega
    · rw [if_neg hp] at h
      cases h

theorem matchFence_barrier : Barrier matchFence 125 := by
  refine ⟨fun B => ?_, fun a A B => ?_, fun a A n h => ?_⟩
  · simp [matchFence, fence, List.dropWhile, isSpace_125, List.isPrefixOf]
  · unfold matchFence
    rw [← List.cons_append, ← List.cons_append, dropWhile_barrier isSpace _ B 125 isSpace_125,
      dropWhile_barrier isSpace _ [] 125 isSpace_125,
      takeWhile_barrier isSpace _ B 125 isSpace_125,
      takeWhile_barrier isSpace _ [] 125 isSpace_125,
      (isPrefixOf_barrier fence 125 (by decide) _ B).1]
  · unfold matchFence at h
    rw [← List.cons_append, dropWhile_barrier isSpace _ [] 125 isSpace_125,
      takeWhile_barrier isSpace _ [] 125 isSpace_125] at h
    by_cases hp : fence.isPrefixOf (List.dropWhile isSpace (a :: A) ++ [125]) = true
    · rw [if_pos hp] at h
      cases h
      have h3 : 3 ≤ (List.dropWhile isSpace (a :: A)).length :=
        (isPrefixOf_barrier fence 125 (by decide) _ []).2 hp
      have h4 := congrArg List.length (List.takeWhile_append_dropWhile isSpace (a :: A))
      rw [List.length_append] at h4
      simp only [List.length_cons] at h4 ⊢
      omega
    · rw [if_neg hp] at h
      cases h

theorem matchFence_none_of_run (pre : JsString) (x : Nat) (rest : JsString)
    (hpre : ∀ c ∈ pre, isSpace c = true) (hx : isSpace x = false) (hx' : x ≠ 96) :
    matchFence (pre ++ x :: rest) = none := by
  have : (96 == x) = false := by simpa using fun h : 96 = x => hx' h.symm
  unfold matchFence
  rw [dropWhile_skip isSpace pre x rest hpre hx]
  simp [fence, List.isPrefixOf, this]

theorem matchFence_none_of_spaces (s : JsString) (hs : ∀ c ∈ s, isSpace c = true) :
    matchFence s = none := by
  have : s.dropWhile isSpace = [] := by
    rw [List.dropWhile_eq_nil_iff]
    exact hs
  simp [matchFence, this, fence, List.isPrefixOf]

theorem matchFence_some (pre rest : JsString) (hpre : ∀ c ∈ pre, isSpace c = true) :
    matchFence (pre ++ 96 :: 96 :: 96 :: rest) = some (pre.length + 3) := by
  unfold matchFence
  rw [dropWhile_skip isSpace pre 96 _ hpre isSpace_96,
    takeWhile_skip isSpace pre 96 _ hpre isSpace_96]
  simp [fence, List.isPrefixOf]

theorem matchFenceJson_spaces (pre s : JsString) (hpre : ∀ c ∈ pre, isSpace c = true) :
    removeAll matchFenceJson 0 (pre ++ s) = pre ++ removeAll matchFenceJson 0 s := by
  refine removeAll_copy _ pre s (fun p1 c p2 he => matchFenceJson_head c _ ?_)
  intro hc
  have hmem : c ∈ pre := by rw [he]; simp
  have := hpre c hmem
  rw [hc, isSpace_96] at this
  cases this

theorem matchFence_spaces (pre : JsString) (x : Nat) (rest : JsString)
    (hpre : ∀ c ∈ pre, isSpace c = true) (hx : isSpace x = false) (hx' : x ≠ 96) :
    removeAll matchFence 0 (pre ++ x :: rest) = pre ++ removeAll matchFence 0 (x :: rest) := by
  refine removeAll_copy _ pre (x :: rest) (fun p1 c p2 he => ?_)
  rw [← List.cons_append]
  refine matchFence_none_of_run (c :: p2) x rest (fun d hd => hpre d ?_) hx hx'
  rw [he]
  exact List.mem_append_right p1 hd

theorem matchFence_only_spaces (s : JsString) (hs : ∀ c ∈ s, isSpace c = true) :
    removeAll matchFence 0 s = s := by
  have := removeAll_copy matchFence s [] (fun p1 c p2 he => by
    rw [List.append_nil]
    refine matchFence_none_of_spaces (c :: p2) (fun d hd => hs d ?_)
    rw [he]
    exact List.mem_append_right p1 hd)
  rw [List.append_nil] at this
  rw [this]
  exact List.append_nil s

theorem matchFenceJson_only_spaces (s : JsString) (hs : ∀ c ∈ s, isSpace c = true) :
    removeAll matchFenceJson 0 s = s := by
  have := matchFenceJson_spaces s [] hs
  rw [List.append_nil] at this
  rw [this]
  exact List.append_nil s

theorem removeAll_whole (m : JsString → Option Nat) (s : JsString) (hs : s ≠ [])
    (hm : m s = some s.length) : removeAll m 0 s = [] := by
  cases s with
  | nil => exact absurd rfl hs
  | cons c cs =>
    rw [removeAll_some m c cs cs.length hm]
    exact removeAll_all m cs

theorem strip_body (m : JsString → Option Nat) (hb : Barrier m 125)
    (h123 : ∀ s, m (123 :: s) = none) (mid : JsString) :
    ∃ Z, ∀ B, removeAll m 0 (123 :: (mid ++ 125 :: B)) = 123 :: (Z ++ 125 :: removeAll m 0 B) := by
  obtain ⟨Z, hZ⟩ := removeAll_barrier m 125 hb mid 0 (Nat.zero_le _)
  exact ⟨Z, fun B => by rw [removeAll_none m 123 _ (h123 _), hZ B]⟩

theorem matchFenceJson_123 (s : JsString) : matchFenceJson (123 :: s) = none :=
  matchFenceJson_head 123 s (by decide)

theorem matchFence_123 (s : JsString) : matchFence (123 :: s) = none :=
  matchFence_none_of_run [] 123 s (fun c hc => by cases hc) isSpace_123 (by decide)

theorem trim_body (lws W tws : JsString) (hl : ∀ c ∈ lws, isSpace c = true)
    (ht : ∀ c ∈ tws, isSpace c = true) :
    trim (lws ++ 123 :: (W ++ 125 :: tws)) = 123 :: (W ++ [125]) := by
  unfold trim
  rw [dropWhile_skip isSpace lws 123 _ hl isSpace_123, ← List.cons_append,
    rdropWhile_skip isSpace (123 :: W) 125 tws ht isSpace_125]
  rfl

/-- The clean-up gives the same text for an object text alone, inside a `json` fence and
inside a bare fence: the braces, and between them what the two passes leave of the body. -/
theorem cleanResponse_fenced (lws mid tws : JsString) (hl : ∀ c ∈ lws, isSpace c = true)
    (ht : ∀ c ∈ tws, isSpace c = true) :
    ∃ W, cleanResponse (lws ++ 123 :: (mid ++ 125 :: tws)) = 123 :: (W ++ [125]) ∧
      cleanResponse ([96, 96, 96, 106, 115, 111, 110, 10] ++
        (lws ++ 123 :: (mid ++ 125 :: tws)) ++ [10, 96, 96, 96]) = 123 :: (W ++ [125]) ∧
      cleanResponse ([96, 96, 96, 10] ++
        (lws ++ 123 :: (mid ++ 125 :: tws)) ++ [10, 96, 96, 96]) = 123 :: (W ++ [125]) := by
  obtain ⟨Z, hZ⟩ := strip_body matchFenceJson matchFenceJson_barrier matchFenceJson_123 mid
  obtain ⟨W, hW⟩ := strip_body matchFence matchFence_barrier matchFence_123 Z
  have hend : removeAll matchFence 0 (tws ++ [10, 96, 96, 96]) = [] := by
    refine removeAll_whole _ _ (by simp) ?_
    have h10 : ∀ c ∈ tws ++ [10], isSpace c = true := by
      intro c hc
      rcases List.mem_append.mp hc with hc | hc
      · exact ht c hc
      · rw [List.mem_singleton.mp hc]
        decide
    have := matchFence_some (tws ++ [10]) [] h10
    simp only [List.append_assoc, List.singleton_append, List.length_append,
      List.length_singleton] at this
    rw [this]
    simp
  have hl10 : ∀ c ∈ 10 :: lws, isSpace c = true := by
    intro c hc
    rcases List.mem_cons.mp hc with hc | hc
    · rw [hc]
      decide
    · exact hl c hc
  have hJ : removeAll matchFenceJson 0 [10, 96, 96, 96] = [10, 96, 96, 96] := by decide
  refine ⟨W, ?_, ?_, ?_⟩
  · unfold cleanResponse
    rw [matchFenceJson_spaces lws _ hl, hZ tws, matchFenceJson_only_spaces tws ht,
      matchFence_spaces lws 123 _ hl isSpace_123 (by decide), hW tws,
      matchFence_only_spaces tws ht]
    exact trim_body lws W tws hl ht
  · unfold cleanResponse
    have hm : matchFenceJson (96 :: ([96, 96, 106, 115, 111, 110, 10] ++ lws ++
        123 :: (mid ++ 125 :: (tws ++ [10, 96, 96, 96])))) =
        some ((([96, 96, 106, 115, 111, 110, 10] ++ lws).length) + 1) := by
      unfold matchFenceJson
      rw [if_pos (by simp [fenceJson, List.isPrefixOf])]
      have hd : List.drop 7 (96 :: ([96, 96, 106, 115, 111, 110, 10] ++ lws ++
          123 :: (mid ++ 125 :: (tws ++ [10, 96, 96, 96])))) =
          (10 :: lws) ++ 123 :: (mid ++ 125 :: (tws ++ [10, 96, 96, 96])) := by
        simp
      rw [hd, takeWhile_skip isSpace (10 :: lws) 123 _ hl10 isSpace_123]
      simp only [List.length_cons, List.length_append, List.length_nil]
      exact congrArg some (by omega)
    have he : [96, 96, 96, 106, 115, 111, 110, 10] ++ (lws ++ 123 :: (mid ++ 125 :: tws)) ++
        [10, 96, 96, 96] = 96 :: ([96, 96, 106, 115, 111, 110, 10] ++ lws ++
        123 :: (mid ++ 125 :: (tws ++ [10, 96, 96, 96]))) := by
      simp
    rw [he, removeAll_some _ _ _ _ hm,
      removeAll_skip matchFenceJson ([96, 96, 106, 115, 111, 110, 10] ++ lws), hZ,
      matchFenceJson_spaces tws _ ht, hJ, hW, hend]
    exact trim_body [] W [] (fun c hc => by cases hc) (fun c hc => by cases hc)
  · unfold cleanResponse
    have he : [96, 96, 96, 10] ++ (lws ++ 123 :: (mid ++ 125 :: tws)) ++ [10, 96, 96, 96] =
        96 :: 96 :: 96 :: 10 :: (lws ++ 123 :: (mid ++ 125 :: (tws ++ [10, 96, 96, 96]))) := by
      simp
    have e1 : ∀ s, matchFenceJson (96 :: 96 :: 96 :: 10 :: s) = none := fun s => by
      simp [matchFenceJson, fenceJson, List.isPrefixOf]
    have e2 : ∀ s, matchFenceJson (96 :: 96 :: 10 :: s) = none := fun s => by
      simp [matchFenceJson, fenceJson, List.isPrefixOf]
    have e3 : ∀ s, matchFenceJson (96 :: 10 :: s) = none := fun s => by
      simp [matchFenceJson, fenceJson, List.isPrefixOf]
    have hF : matchFence (96 :: 96 :: 96 :: ((10 :: lws) ++
        123 :: (Z ++ 125 :: (tws ++ [10, 96, 96, 96])))) = some (2 + 1) :=
      matchFence_some [] _ (fun c hc => by cases hc)
    rw [he, removeAll_none _ _ _ (e1 _), removeAll_none _ _ _ (e2 _),
      removeAll_none _ _ _ (e3 _), removeAll_none _ _ _ (matchFenceJson_head 10 _ (by decide)),
      matchFenceJson_spaces lws _ hl, hZ, matchFenceJson_spaces tws _ ht]
    rw [hJ, ← List.cons_append, removeAll_some _ _ _ _ hF]
    have hskip := removeAll_skip matchFence [96, 96]
      ((10 :: lws) ++ 123 :: (Z ++ 125 :: (tws ++ [10, 96, 96, 96])))
    rw [show removeAll matchFence 2 (96 :: 96 :: ((10 :: lws) ++
        123 :: (Z ++ 125 :: (tws ++ [10, 96, 96, 96])))) =
        removeAll matchFence 0 ((10 :: lws) ++
        123 :: (Z ++ 125 :: (tws ++ [10, 96, 96, 96]))) from hskip,
      matchFence_spaces (10 :: lws) 123 _ hl10 isSpace_123 (by decide), hW, hend]
    exact trim_body (10 :: lws) W [] hl10 (fun c hc => by cases hc)

/-! ## From the reply to the result -/

theorem jsonSpace_isSpace (c : Nat) (h : isJsonSpace c = true) : isSpace c = true := by
  simp only [isJsonSpace, Bool.or_eq_true, beq_iff_eq] at h
  rcases h with ((h | h) | h) | h <;> subst h <;> decide

theorem cleanResponse_head (W : JsString) : (123 :: (W ++ [125])).head? = some 123 := rfl

/-- Clean-up of a text that parses as an object, alone or fenced: one and the same text. -/
theorem clean_of_object (J : JsString) (kvs : List (JsString × JsVal))
    (hJ : JSON.parse J = .ok (.obj kvs)) :
    cleanResponse (fencedJson J) = cleanResponse J ∧
      cleanResponse (fencedBare J) = cleanResponse J := by
  obtain ⟨lws, mid, tws, he, hl, ht, _⟩ := parse_obj_shape J kvs hJ
  obtain ⟨W, h1, h2, h3⟩ := cleanResponse_fenced lws mid tws
    (fun c hc => jsonSpace_isSpace c (hl c hc)) (fun c hc => jsonSpace_isSpace c (ht c hc))
  have e1 : units "```json\n" = [96, 96, 96, 106, 115, 111, 110, 10] := by decide
  have e2 : units "\n```" = [10, 96, 96, 96] := by decide
  have e3 : units "```\n" = [96, 96, 96, 10] := by decide
  unfold fencedJson fencedBare
  rw [e1, e2, e3, he, h1, h2, h3]
  exact ⟨rfl, rfl⟩

theorem noFence_suffix (p t : JsString) (h : containsFence (p ++ t) = false) :
    fence.isPrefixOf t = false := by
  induction p with
  | nil =>
    cases t with
    | nil => rfl
    | cons c cs =>
      simp only [List.nil_append, containsFence, Bool.or_eq_false_iff] at h
      exact h.1
  | cons a p ih =>
    simp only [List.cons_append, containsFence, Bool.or_eq_false_iff] at h
    exact ih h.2

theorem fenceJson_fence (t : JsString) (h : fence.isPrefixOf t = false) :
    fenceJson.isPrefixOf t = false := by
  rcases t with _ | ⟨a, _ | ⟨b, _ | ⟨c, t⟩⟩⟩ <;>
    simp_all [fence, fenceJson, List.isPrefixOf]

theorem clean_of_noFence (reply : JsString) (h : containsFence reply = false) :
    cleanResponse reply = trim reply := by
  have hJ : removeAll matchFenceJson 0 reply = reply := by
    have := removeAll_copy matchFenceJson reply [] (fun p1 c p2 he => by
      rw [List.append_nil]
      have hp := fenceJson_fence (c :: p2) (noFence_suffix p1 (c :: p2) (he ▸ h))
      simp [matchFenceJson, hp])
    rw [List.append_nil] at this
    rw [this]
    exact List.append_nil reply
  have hF : removeAll matchFence 0 reply = reply := by
    have := removeAll_copy matchFence reply [] (fun p1 c p2 he => by
      rw [List.append_nil]
      have hsplit : reply = (p1 ++ (c :: p2).takeWhile isSpace) ++ (c :: p2).dropWhile isSpace := by
        rw [List.append_assoc, List.takeWhile_append_dropWhile, he]
      have hp := noFence_suffix _ _ (hsplit ▸ h)
      simp [matchFence, hp])
    rw [List.append_nil] at this
    rw [this]
    exact List.append_nil reply
  unfold cleanResponse
  rw [hJ, hF]

/-- A fence-free reply that parses as an object reaches `JSON.parse` as its trimmed text, and
gives the same object. -/
theorem extractJson_of_noFence (reply : JsString) (kvs : List (JsString × JsVal))
    (h : containsFence reply = false) (hp : JSON.parse reply = .ok (.obj kvs)) :
    extractJson reply = .ok (.obj kvs) := by
  obtain ⟨lws, mid, tws, he, hl, ht, hcore⟩ := parse_obj_shape reply kvs hp
  have hclean : cleanResponse reply = 123 :: (mid ++ [125]) := by
    rw [clean_of_noFence reply h, he]
    exact trim_body lws mid tws (fun c hc => jsonSpace_isSpace c (hl c hc))
      (fun c hc => jsonSpace_isSpace c (ht c hc))
  unfold extractJson jsonText
  rw [hclean, if_pos (cleanResponse_head mid), hcore]

theorem lookup_setField_ne (fs : List (JsString × JsVal)) (key k : JsString) (x : JsVal)
    (h : k ≠ key) : lookup (setField fs key x) k = lookup fs k := by
  induction fs with
  | nil => simp [setField, lookup, h.symm]
  | cons f fs ih =>
    obtain ⟨k', v'⟩ := f
    unfold setField
    by_cases hk : k' = key
    · rw [if_pos hk]
      have : k' ≠ k := fun e => h (e ▸ hk)
      simp [lookup, this]
    · rw [if_neg hk]
      by_cases hk2 : k' = k
      · simp [lookup, hk2]
      · simp [lookup, hk2, ih]

theorem lookup_setField_eq (fs : List (JsString × JsVal)) (key : JsString) (x : JsVal) :
    lookup (setField fs key x) key = some x := by
  induction fs with
  | nil => simp [setField, lookup]
  | cons f fs ih =>
    obtain ⟨k', v'⟩ := f
    unfold setField
    by_cases hk : k' = key
    · rw [if_pos hk]
      simp [lookup, hk]
    · rw [if_neg hk]
      simp [lookup, hk, ih]

theorem getProp_of_present (fs : List (JsString × JsVal)) (key : JsString)
    (h : present (lookup fs key) = true) :
    ∃ w, getProp (.obj fs) key = .ok w ∧ lookup fs key = some w ∧ w ≠ .null ∧
      w ≠ .undefined := by
  cases hl : lookup fs key with
  | none => rw [hl] at h; cases h
  | some w =>
    refine ⟨w, by simp [getProp, hl], rfl, ?_, ?_⟩ <;> intro hw <;> subst hw <;>
      rw [hl] at h <;> cases h

theorem getProp_defined (w : JsVal) (key : JsString) (h1 : w ≠ .null) (h2 : w ≠ .undefined) :
    ∃ u, getProp w key = .ok u := by
  cases w with
  | undefined => exact absurd rfl h2
  | null => exact absurd rfl h1
  | bool b => exact ⟨_, rfl⟩
  | num n => exact ⟨_, rfl⟩
  | str s => exact ⟨_, rfl⟩
  | arr items => exact ⟨_, rfl⟩
  | obj fs => exact ⟨_, rfl⟩

theorem except_bind_ok {α β : Type} {x : Except Thrown α} {f : α → Except Thrown β} {r : β}
    (h : x >>= f = .ok r) : ∃ a, x = .ok a ∧ f a = .ok r := by
  cases x with
  | error e => cases h
  | ok a => exact ⟨a, rfl, h⟩

theorem setProp_obj (v : JsVal) (key : JsString) (x : JsVal) (fs : List (JsString × JsVal))
    (h : setProp v key x = .ok (.obj fs)) : ∃ fs0, v = .obj fs0 ∧ fs = setField fs0 key x := by
  cases v <;> cases h
  exact ⟨_, rfl, rfl⟩

theorem getProp_chain (v w u : JsVal) (k k' : JsString) (hk : k ≠ units "length")
    (h1 : getProp v k = .ok w) (h2 : getProp w k' = .ok u) :
    ∃ fs, v = .obj fs ∧ lookup fs k = some w ∧ present (some w) = true := by
  have hw : w ≠ .undefined ∧ w ≠ .null := by
    constructor <;> intro e <;> subst e <;> cases h2
  cases v with
  | undefined => cases h1
  | null => cases h1
  | bool b => cases h1; exact absurd rfl hw.1
  | num n => cases h1; exact absurd rfl hw.1
  | str s =>
    simp only [getProp, if_neg hk] at h1
    cases h1
    exact absurd rfl hw.1
  | arr items =>
    simp only [getProp, if_neg hk] at h1
    cases h1
    exact absurd rfl hw.1
  | obj fs =>
    simp only [getProp] at h1
    cases hl : lookup fs k with
    | none =>
      rw [hl] at h1
      cases h1
      exact absurd rfl hw.1
    | some w' =>
      rw [hl] at h1
      simp only [Option.getD] at h1
      cases h1
      refine ⟨fs, rfl, hl, ?_⟩
      cases w <;> first | rfl | exact absurd rfl hw.1 | exact absurd rfl hw.2

/-- What a successful inner `try` returns: an object that carries the two assigned
properties, a `statistics` and a `feedback.improvements` that are there and not `null`;
its other properties are those of the parsed reply, as they are. -/
theorem parseReply_ok (response : JsVal) (t : JsString) (r : JsVal)
    (h : parseReply response t = .ok r) :
    ∃ text kvs, response = .str text ∧ extractJson text = .ok (.obj kvs) ∧
      r = .obj (setField (setField kvs (units "analysisTime") (.str t)) (units "aiEnabled")
        (.bool true)) ∧
      present (field r (units "statistics")) = true ∧ present (improvementsOf r) = true := by
  unfold parseReply at h
  obtain ⟨text, h1, h⟩ := except_bind_ok h
  obtain ⟨parsed, h2, h⟩ := except_bind_ok h
  obtain ⟨timed, h3, h⟩ := except_bind_ok h
  obtain ⟨result, h4, h⟩ := except_bind_ok h
  obtain ⟨statistics, h5, h⟩ := except_bind_ok h
  obtain ⟨c, h6, h⟩ := except_bind_ok h
  obtain ⟨_, _, h⟩ := except_bind_ok h
  obtain ⟨feedback, h8, h⟩ := except_bind_ok h
  obtain ⟨improvements, h9, h⟩ := except_bind_ok h
  obtain ⟨l, h10, h⟩ := except_bind_ok h
  cases h
  obtain ⟨fs, hr, hst, hstp⟩ := getProp_chain r statistics c _ _ (by decide) h5 h6
  obtain ⟨fs', hr', hfb, _⟩ := getProp_chain r feedback improvements _ _ (by decide) h8 h9
  obtain ⟨ffs, hf, him, himp⟩ := getProp_chain feedback improvements l _ _ (by decide) h9 h10
  subst hr
  obtain ⟨fs0, ht, hfs⟩ := setProp_obj timed _ _ fs h4
  subst ht
  obtain ⟨kvs, hpa, hfs0⟩ := setProp_obj parsed _ _ fs0 h3
  subst hpa
  have htext : response = .str text := by
    cases response <;> first | (cases h1; rfl) | cases h1
  refine ⟨text, kvs, htext, h2, by rw [hfs, hfs0], ?_, ?_⟩
  · simp only [field, hst]
    exact hstp
  · cases hr'
    simp only [improvementsOf, field, hfb, Option.bind]
    subst hf
    simp only [field, him]
    exact himp

theorem parseReply_of_object (reply t : JsString) (kvs : List (JsString × JsVal))
    (hx : extractJson reply = .ok (.obj kvs))
    (hstats : present (field (.obj kvs) (units "statistics")) = true)
    (himp : present (improvementsOf (.obj kvs)) = true) :
    parseReply (.str reply) t =
      .ok (.obj (setField (setField kvs (units "analysisTime") (.str t)) (units "aiEnabled")
        (.bool true))) := by
  have hs1 : lookup (setField (setField kvs (units "analysisTime") (.str t))
      (units "aiEnabled") (.bool true)) (units "statistics") =
      lookup kvs (units "statistics") := by
    rw [lookup_setField_ne _ _ _ _ (by decide), lookup_setField_ne _ _ _ _ (by decide)]
  have hs2 : lookup (setField (setField kvs (units "analysisTime") (.str t))
      (units "aiEnabled") (.bool true)) (units "feedback") =
      lookup kvs (units "feedback") := by
    rw [lookup_setField_ne _ _ _ _ (by decide), lookup_setField_ne _ _ _ _ (by decide)]
  obtain ⟨st, hst, _, hst1, hst2⟩ := getProp_of_present _ (units "statistics")
    (by rw [hs1]; exact hstats)
  obtain ⟨c1, hc1⟩ := getProp_defined st (units "complexity") hst1 hst2
  obtain ⟨c2, hc2⟩ := getProp_defined st (units "readability") hst1 hst2
  simp only [improvementsOf, field] at himp
  cases hfb : lookup kvs (units "feedback") with
  | none =>
    rw [hfb] at himp
    cases himp
  | some fb =>
    rw [hfb] at himp
    simp only [Option.bind] at himp
    cases fb with
    | obj ffs =>
      simp only [field] at himp
      obtain ⟨im, him, _, him1, him2⟩ := getProp_of_present ffs (units "improvements") himp
      obtain ⟨l, hl⟩ := getProp_defined im (units "length") him1 him2
      have hgfb : getProp (.obj (setField (setField kvs (units "analysisTime") (.str t))
          (units "aiEnabled") (.bool true))) (units "feedback") = .ok (.obj ffs) := by
        simp only [getProp, hs2, hfb, Option.getD]
      simp only [parseReply, bind, Except.bind, hx, setProp, hst, hc1, hc2, hgfb, him, hl,
        pure, Except.pure]
    | undefined => cases himp
    | null => cases himp
    | bool b => cases himp
    | num n => cases himp
    | str s => cases himp
    | arr items => cases himp

/-! ## The results the orchestrator can return -/

theorem except_bind_error {α β : Type} {x : Except Thrown α} {f : α → Except Thrown β}
    {e : Thrown} (h : x >>= f = .error e) :
    x = .error e ∨ ∃ a, x = .ok a ∧ f a = .error e := by
  cases x with
  | error e' =>
    left
    cases h
    rfl
  | ok a => exact Or.inr ⟨a, rfl, h⟩

theorem getProp_error (v : JsVal) (key : JsString) (e : Thrown)
    (h : getProp v key = .error e) : e = .typeError := by
  cases v <;> cases h <;> rfl

theorem getFirst_error (v : JsVal) (e : Thrown)
    (h : getFirst v = .error e) : e = .typeError := by
  cases v <;> cases h <;> rfl

theorem setProp_error (v : JsVal) (key : JsString) (x : JsVal) (e : Thrown)
    (h : setProp v key x = .error e) : e = .typeError := by
  cases v <;> cases h <;> rfl

theorem readContent_error (completion : JsVal) (e : Thrown)
    (h : readContent completion = .error e) : e = .typeError := by
  unfold readContent at h
  rcases except_bind_error h with h | ⟨_, _, h⟩
  · exact getProp_error _ _ _ h
  rcases except_bind_error h with h | ⟨_, _, h⟩
  · exact getFirst_error _ _ h
  rcases except_bind_error h with h | ⟨_, _, h⟩
  · exact getProp_error _ _ _ h
  · exact getProp_error _ _ _ h

/-- The inner `try` raises engine errors only: a `TypeError` or the `SyntaxError` of
`JSON.parse`. -/
theorem parseReply_throws (response : JsVal) (t : JsString) (e : Thrown)
    (h : parseReply response t = .error e) : isNullish e = false := by
  unfold parseReply at h
  rcases except_bind_error h with h | ⟨_, _, h⟩
  · cases response <;> cases h <;> rfl
  rcases except_bind_error h with h | ⟨_, _, h⟩
  · rw [extractJson_error _ _ h]
    rfl
  rcases except_bind_error h with h | ⟨_, _, h⟩
  · rw [setProp_error _ _ _ _ h]
    rfl
  rcases except_bind_error h with h | ⟨_, _, h⟩
  · rw [setProp_error _ _ _ _ h]
    rfl
  rcases except_bind_error h with h | ⟨_, _, h⟩
  · rw [getProp_error _ _ _ h]
    rfl
  rcases except_bind_error h with h | ⟨_, _, h⟩
  · rw [getProp_error _ _ _ h]
    rfl
  rcases except_bind_error h with h | ⟨_, _, h⟩
  · rw [getProp_error _ _ _ h]
    rfl
  rcases except_bind_error h with h | ⟨_, _, h⟩
  · rw [getProp_error _ _ _ h]
    rfl
  rcases except_bind_error h with h | ⟨_, _, h⟩
  · rw [getProp_error _ _ _ h]
    rfl
  rcases except_bind_error h with h | ⟨_, _, h⟩
  · rw [getProp_error _ _ _ h]
    rfl
  · cases h

/-- Once the client has answered with a completion, whatever the outer `try` raises is a
`TypeError` of the engine. -/
theorem handleOutcome_returned_error (clock : Clock) (completion : JsVal)
    (code fileName language targetLanguage : JsString) (e : Thrown)
    (h : handleOutcome clock (.returned completion) code fileName language targetLanguage =
      .error e) : isNullish e = false := by
  unfold handleOutcome at h
  rcases except_bind_error h with h | ⟨_, _, h⟩
  · cases h
  rcases except_bind_error h with h | ⟨response, _, h⟩
  · rw [readContent_error _ _ h]
    rfl
  rcases except_bind_error h with h | ⟨_, _, h⟩
  · rw [getProp_error _ _ _ h]
    rfl
  cases hp : parseReply response
      (toFixed2 clock.hundredths (clock.endTime - clock.startTime) ++ units "s") with
  | ok result =>
    rw [hp] at h
    cases h
  | error parseError =>
    rw [hp] at h
    simp only at h
    rw [catchParse_ok parseError code fileName language targetLanguage
      (parseReply_throws _ _ _ hp)] at h
    cases h

theorem catchAll_eq_ok (e : Thrown) (code fileName language targetLanguage : JsString)
    (r : JsVal) (h : catchAll e code fileName language targetLanguage = .ok r) :
    r = generateMockAnalysis code fileName language targetLanguage := by
  cases hn : isNullish e with
  | true =>
    rw [catchAll_nullish e code fileName language targetLanguage hn] at h
    cases h
  | false =>
    rw [catchAll_ok e code fileName language targetLanguage hn] at h
    cases h
    rfl

/-- The orchestrator returns a value whenever the call to the client, if there is one,
settles and is not rejected with `null` or `undefined`. -/
theorem analyze_resolves (cfg : Config) (clock : Clock)
    (code fileName language targetLanguage : JsString)
    (hsettles : ∀ client, cfg.aiClient = some client → cfg.aiEnabled = true →
      client [] (chatRequest cfg code fileName language targetLanguage) ≠ none)
    (hvalue : ∀ client e, cfg.aiClient = some client → cfg.aiEnabled = true →
      client [] (chatRequest cfg code fileName language targetLanguage) = some (.raised e) →
      isNullish e = false) :
    ∃ r, (analyzeCodeWithAI cfg clock code fileName language targetLanguage).result =
      .resolved r := by
  cases hc : cfg.aiClient with
  | none =>
    rw [analyze_unconfigured cfg clock code fileName language targetLanguage (Or.inl hc)]
    exact ⟨_, rfl⟩
  | some client =>
    cases he : cfg.aiEnabled with
    | false =>
      rw [analyze_unconfigured cfg clock code fileName language targetLanguage (Or.inr he)]
      exact ⟨_, rfl⟩
    | true =>
      cases hcall : client [] (chatRequest cfg code fileName language targetLanguage) with
      | none => exact absurd hcall (hsettles client hc he)
      | some outcome =>
        cases outcome with
        | raised e =>
          rw [analyze_client_error cfg client clock code fileName language targetLanguage e
            hc he hcall (hvalue client e hc he hcall)]
          exact ⟨_, rfl⟩
        | returned completion =>
          rw [analyze_configured cfg client clock code fileName language targetLanguage _
            hc he hcall]
          cases hO : handleOutcome clock (.returned completion) code fileName language
            targetLanguage with
          | ok r => exact ⟨r, rfl⟩
          | error e =>
            simp only
            rw [catchAll_ok e code fileName language targetLanguage
              (handleOutcome_returned_error clock completion code fileName language
                targetLanguage e hO)]
            exact ⟨_, rfl⟩

/-- A returned value is the placeholder, or what the inner `try` returned for the content of
the completion the client answered with. -/
theorem analyze_result_cases (cfg : Config) (clock : Clock)
    (code fileName language targetLanguage : JsString) (r : JsVal)
    (h : (analyzeCodeWithAI cfg clock code fileName language targetLanguage).result =
      .resolved r) :
    r = generateMockAnalysis code fileName language targetLanguage ∨
      ∃ client completion response,
        cfg.aiClient = some client ∧
        client [] (chatRequest cfg code fileName language targetLanguage) =
          some (.returned completion) ∧
        readContent completion = .ok response ∧
        parseReply response
          (toFixed2 clock.hundredths (clock.endTime - clock.startTime) ++ units "s") =
          .ok r := by
  cases hc : cfg.aiClient with
  | none =>
    rw [analyze_unconfigured cfg clock code fileName language targetLanguage (Or.inl hc)] at h
    cases h
    exact Or.inl rfl
  | some client =>
    cases he : cfg.aiEnabled with
    | false =>
      rw [analyze_unconfigured cfg clock code fileName language targetLanguage
        (Or.inr he)] at h
      cases h
      exact Or.inl rfl
    | true =>
      cases hcall : client [] (chatRequest cfg code fileName language targetLanguage) with
      | none =>
        rw [analyze_pending cfg client clock code fileName language targetLanguage hc he
          hcall] at h
        cases h
      | some outcome =>
        rw [analyze_configured cfg client clock code fileName language targetLanguage _
          hc he hcall] at h
        simp only at h
        cases hO : handleOutcome clock outcome code fileName language targetLanguage with
        | error e =>
          rw [hO] at h
          simp only at h
          cases hca : catchAll e code fileName language targetLanguage with
          | error e' =>
            rw [hca] at h
            cases h
          | ok r' =>
            rw [hca] at h
            cases h
            exact Or.inl (catchAll_eq_ok e code fileName language targetLanguage _ hca)
        | ok r' =>
          rw [hO] at h
          cases h
          cases outcome with
          | raised e => cases hO
          | returned completion =>
            unfold handleOutcome at hO
            obtain ⟨c, hcomp, hO⟩ := except_bind_ok hO
            cases hcomp
            obtain ⟨response, hresp, hO⟩ := except_bind_ok hO
            obtain ⟨_, _, hO⟩ := except_bind_ok hO
            cases hp : parseReply response
              (toFixed2 clock.hundredths (clock.endTime - clock.startTime) ++ units "s") with
            | error parseError =>
              rw [hp] at hO
              simp only at hO
              rw [catchParse_ok parseError code fileName language targetLanguage
                (parseReply_throws _ _ _ hp)] at hO
              cases hO
              exact Or.inl rfl
            | ok result =>
              rw [hp] at hO
              cases hO
              exact Or.inr ⟨client, completion, response, rfl, hcall, hresp, hp⟩

/-- The result for a reply text that reaches `JSON.parse` as an object with a `statistics` and
a `feedback.improvements` that are there and not `null`: the parsed object, with the two
assigned properties. -/
theorem analyze_reply_object (cfg : Config) (client : AiClient) (clock : Clock)
    (code fileName language targetLanguage : JsString) (completion : JsVal)
    (reply : JsString) (kvs : List (JsString × JsVal))
    (hc : cfg.aiClient = some client) (he : cfg.aiEnabled = true)
    (hcall : client [] (chatRequest cfg code fileName language targetLanguage) =
      some (.returned completion))
    (hread : readContent completion = .ok (.str reply))
    (hx : extractJson reply = .ok (.obj kvs))
    (hstats : present (field (.obj kvs) (units "statistics")) = true)
    (himp : present (improvementsOf (.obj kvs)) = true) :
    (analyzeCodeWithAI cfg clock code fileName language targetLanguage).result =
      .resolved (.obj (setField (setField kvs (units "analysisTime")
        (.str (toFixed2 clock.hundredths (clock.endTime - clock.startTime) ++ units "s")))
        (units "aiEnabled") (.bool true))) := by
  rw [analyze_configured cfg client clock code fileName language targetLanguage _ hc he hcall,
    handleOutcome_text clock completion reply code fileName language targetLanguage hread,
    parseReply_of_object reply _ kvs hx hstats himp]

theorem toFixed2_of_nonneg (hundredths : Nat → Nat) (ms : Int) (h : 0 ≤ ms) :
    toFixed2 hundredths ms ++ units "s" = durationText (hundredths ms.natAbs) := by
  unfold toFixed2 durationText
  rw [if_neg (not_lt.mpr h)]
  rfl

/-! ## Sanitising the name of an uploaded file -/

theorem substituteAll_disallowed (s : JsString) :
    substituteAll matchDisallowed [95] 0 s =
      s.map (fun c => if isAllowedUnit c = true then c else 95) := by
  induction s with
  | nil => rfl
  | cons c cs ih =>
    by_cases hc : isAllowedUnit c = true
    · have hm : matchDisallowed (c :: cs) = none := by
        simp only [matchDisallowed, hc, if_true]
      simp only [substituteAll, hm, List.map_cons, ih, if_pos hc]
    · have hm : matchDisallowed (c :: cs) = some (0 + 1) := by
        simp only [matchDisallowed, if_neg hc]
      simp only [substituteAll, hm, List.map_cons, ih, if_neg hc]
      rfl

/-- The sanitised name, code unit by code unit: the unit itself when the class allows it, an
underscore otherwise. -/
theorem sanitizedName_eq_map (name : JsString) :
    sanitizedName name = name.map (fun c => if isAllowedUnit c = true then c else 95) := by
  have hu : units "_" = [95] := by decide
  unfold sanitizedName
  rw [hu]
  exact substituteAll_disallowed name

theorem isAllowedUnit_iff (c : Nat) :
    isAllowedUnit c = true ↔
      ((97 ≤ c ∧ c ≤ 122) ∨ (65 ≤ c ∧ c ≤ 90) ∨ (48 ≤ c ∧ c ≤ 57) ∨
        c = 46 ∨ c = 45 ∨ c = 95) := by
  simp only [isAllowedUnit, Bool.or_eq_true, Bool.and_eq_true, decide_eq_true_eq, beq_iff_eq]
  tauto

theorem sanitizedName_allowed (name : JsString) :
    ∀ c ∈ sanitizedName name, isAllowedUnit c = true := by
  intro c hc
  rw [sanitizedName_eq_map, List.mem_map] at hc
  obtain ⟨d, _, hd⟩ := hc
  by_cases h : isAllowedUnit d = true
  · rw [if_pos h] at hd
    rw [← hd]
    exact h
  · rw [if_neg h] at hd
    rw [← hd]
    decide

/-! ## The claims -/

/-- Counterexample to C1: a remote client that rejects the request with `null`, or with
`undefined`. The outer `catch` reads `error.message` of what was thrown, that read raises a
`TypeError` inside the `catch` block, and the promise of `analyzeCodeWithAI` is rejected with
it: the caller sees an error. And with a client whose call never settles, the promise never
settles either: no result is returned. -/
theorem C1_counterexample :
    (analyzeCodeWithAI (groqConfig (failingClient (.value .null))) sampleClock
        (units "let x = 1;") (units "a.js") (units "en") (units "javascript")).result =
        .rejected .typeError ∧
      (analyzeCodeWithAI (groqConfig (failingClient (.value .undefined))) sampleClock
        (units "let x = 1;") (units "a.js") (units "en") (units "javascript")).result =
        .rejected .typeError ∧
      (analyzeCodeWithAI (groqConfig stalledClient) sampleClock
        (units "let x = 1;") (units "a.js") (units "en") (units "javascript")).result =
        .pending := by
  decide

/-- C1, amended: `analyzeCodeWithAI` resolves with a value, and no error reaches the caller,
for every configuration (client set or not, enabled or not), every clock, every code text,
file name, language and target language, and every behaviour of the remote client in which
the one call made to it settles (it answers or it rejects) and is not rejected with `null`
or `undefined`: it may reject with any other value, with or without a `message` and a
`status`, or answer with any completion object, well-formed or not, carrying any reply
text. -/
theorem C1_resolves_when_settled (cfg : Config) (clock : Clock)
    (code fileName language targetLanguage : JsString)
    (hsettles : ∀ client, cfg.aiClient = some client → cfg.aiEnabled = true →
      client [] (chatRequest cfg code fileName language targetLanguage) ≠ none)
    (hvalue : ∀ client e, cfg.aiClient = some client → cfg.aiEnabled = true →
      client [] (chatRequest cfg code fileName language targetLanguage) = some (.raised e) →
      isNullish e = false) :
    ∃ r, (analyzeCodeWithAI cfg clock code fileName language targetLanguage).result =
      .resolved r :=
  analyze_resolves cfg clock code fileName language targetLanguage hsettles hvalue

/-- Witness of the amended C1: a client that rejects with the string `boom`, a value with no
`message` and no `status`; the promise resolves. -/
theorem C1_resolves_when_settled_witness :
    isNullish (.value (.str (units "boom"))) = false ∧
      isResolved (analyzeCodeWithAI (groqConfig (failingClient (.value (.str (units "boom")))))
        sampleClock (units "let x = 1;") (units "a.js") (units "en")
        (units "javascript")).result = true := by
  obtain ⟨r, h⟩ := C1_resolves_when_settled
    (groqConfig (failingClient (.value (.str (units "boom"))))) sampleClock
    (units "let x = 1;") (units "a.js") (units "en") (units "javascript")
    (fun client hc _ => by
      cases hc
      exact fun h => by cases h)
    (fun client e hc _ hcall => by
      cases hc
      cases hcall
      rfl)
  rw [h]
  exact ⟨rfl, rfl⟩

/-- Counterexample to C2: the reply is a parseable JSON object that omits `improvedCode` (and
more); the result handed to the caller is that object with `analysisTime` and `aiEnabled`
added, not a fully populated one. -/
theorem C2_counterexample :
    JSON.parse sparseReply =
        .ok (.obj [(units "statistics", .obj []),
          (units "feedback", .obj [(units "improvements", .arr [])])]) ∧
      (analyzeCodeWithAI (groqConfig (replyingClient sparseReply)) sampleClock
          (units "let x = 1;") (units "a.js") (units "en") (units "javascript")).result =
        .resolved (.obj [(units "statistics", .obj []),
          (units "feedback", .obj [(units "improvements", .arr [])]),
          (units "analysisTime", .str (units "1.23s")), (units "aiEnabled", .bool true)]) ∧
      fullyPopulated (.obj [(units "statistics", .obj []),
          (units "feedback", .obj [(units "improvements", .arr [])]),
          (units "analysisTime", .str (units "1.23s")), (units "aiEnabled", .bool true)]) =
        false := by
  decide

/-- C2, amended: for all inputs and every behaviour of the remote client, every value that
`analyzeCodeWithAI` returns has `analysisTime` and `aiEnabled`, and a `statistics` and a
`feedback.improvements` that are there and not `null`. It is the placeholder of
`generateMockAnalysis`, which is fully populated, or it has `aiEnabled` true and is the object
parsed from the text of the client's reply with the two properties assigned, its other keys
neither checked nor filled in. In particular every result with `aiEnabled` false is fully
populated. And a value is returned whenever the one call made to the client settles and is
not rejected with `null` or `undefined`. -/
theorem C2_result_minimum (cfg : Config) (clock : Clock)
    (code fileName language targetLanguage : JsString) :
    (∀ r, (analyzeCodeWithAI cfg clock code fileName language targetLanguage).result =
        .resolved r →
      hasKey r (units "analysisTime") = true ∧ hasKey r (units "aiEnabled") = true ∧
      present (field r (units "statistics")) = true ∧ present (improvementsOf r) = true ∧
      ((r = generateMockAnalysis code fileName language targetLanguage ∧
          fullyPopulated r = true) ∨
        (field r (units "aiEnabled") = some (.bool true) ∧
          ∃ client completion text kvs,
            cfg.aiClient = some client ∧
            client [] (chatRequest cfg code fileName language targetLanguage) =
              some (.returned completion) ∧
            readContent completion = .ok (.str text) ∧
            extractJson text = .ok (.obj kvs) ∧
            r = .obj (setField (setField kvs (units "analysisTime") (.str
              (toFixed2 clock.hundredths (clock.endTime - clock.startTime) ++ units "s")))
              (units "aiEnabled") (.bool true)))) ∧
      (field r (units "aiEnabled") = some (.bool false) → fullyPopulated r = true)) ∧
    ((∀ client, cfg.aiClient = some client → cfg.aiEnabled = true →
        client [] (chatRequest cfg code fileName language targetLanguage) ≠ none) →
      (∀ client e, cfg.aiClient = some client → cfg.aiEnabled = true →
        client [] (chatRequest cfg code fileName language targetLanguage) =
          some (.raised e) → isNullish e = false) →
      ∃ r, (analyzeCodeWithAI cfg clock code fileName language targetLanguage).result =
        .resolved r) := by
  refine ⟨fun r h => ?_,
    analyze_resolves cfg clock code fileName language targetLanguage⟩
  rcases analyze_result_cases cfg clock code fileName language targetLanguage r h with
    hm | ⟨client, completion, response, hc, hcall, hread, hp⟩
  · subst hm
    exact ⟨rfl, rfl, rfl, rfl, Or.inl ⟨rfl, rfl⟩, fun _ => rfl⟩
  · obtain ⟨text, kvs, hresp, hx, hr, hst, him⟩ := parseReply_ok response _ r hp
    have hE : field r (units "aiEnabled") = some (.bool true) := by
      rw [hr]
      exact lookup_setField_eq _ _ _
    have hT : field r (units "analysisTime") = some (.str
        (toFixed2 clock.hundredths (clock.endTime - clock.startTime) ++ units "s")) := by
      rw [hr]
      simp only [field]
      rw [lookup_setField_ne _ _ _ _ (by decide)]
      exact lookup_setField_eq _ _ _
    refine ⟨?_, ?_, hst, him,
      Or.inr ⟨hE, client, completion, text, kvs, hc, hcall, hresp ▸ hread, hx, hr⟩,
      fun hf => ?_⟩
    · simp only [hasKey, hT, Option.isSome]
    · simp only [hasKey, hE, Option.isSome]
    · rw [hE] at hf
      cases hf

/-- Witness of the amended C2: the sparse reply. The value returned for it has `analysisTime`
and a `statistics` that is there, and the promise resolves. -/
theorem C2_result_minimum_witness :
    hasKey (.obj [(units "statistics", .obj []),
          (units "feedback", .obj [(units "improvements", .arr [])]),
          (units "analysisTime", .str (units "1.23s")), (units "aiEnabled", .bool true)])
        (units "analysisTime") = true ∧
      present (field (.obj [(units "statistics", .obj []),
          (units "feedback", .obj [(units "improvements", .arr [])]),
          (units "analysisTime", .str (units "1.23s")), (units "aiEnabled", .bool true)])
        (units "statistics")) = true ∧
      isResolved (analyzeCodeWithAI (groqConfig (replyingClient sparseReply)) sampleClock
        (units "let x = 1;") (units "a.js") (units "en") (units "javascript")).result =
        true := by
  have h := C2_result_minimum (groqConfig (replyingClient sparseReply)) sampleClock
    (units "let x = 1;") (units "a.js") (units "en") (units "javascript")
  have h1 := h.1 (.obj [(units "statistics", .obj []),
    (units "feedback", .obj [(units "improvements", .arr [])]),
    (units "analysisTime", .str (units "1.23s")), (units "aiEnabled", .bool true)])
    (by decide)
  obtain ⟨r, h2⟩ := h.2
    (fun client hc _ => by
      cases hc
      exact fun h => by cases h)
    (fun client e hc _ hcall => by
      cases hc
      cases hcall)
  rw [h2]
  exact ⟨h1.1, h1.2.2.1, rfl⟩

/-- C3: when no remote client is configured (`aiClient` unset or `aiEnabled` false),
`analyzeCodeWithAI` hands no request to the client and returns exactly
`generateMockAnalysis(code, fileName, language, targetLanguage)`; its `aiEnabled` is `false`
and its `feedback.overall` is the fixed English text when the language is `en` and the fixed
Dutch text for every other language. -/
theorem C3_unconfigured_returns_mock (cfg : Config) (clock : Clock)
    (code fileName language targetLanguage : JsString)
    (h : cfg.aiClient = none ∨ cfg.aiEnabled = false) :
    analyzeCodeWithAI cfg clock code fileName language targetLanguage =
        ⟨.resolved (generateMockAnalysis code fileName language targetLanguage), []⟩ ∧
      field (generateMockAnalysis code fileName language targetLanguage) (units "aiEnabled") =
        some (.bool false) ∧
      (language = units "en" →
        overallOf (generateMockAnalysis code fileName language targetLanguage) = some (.str
          (units "This is a demo analysis. Configure Groq API for detailed code reviews."))) ∧
      (language ≠ units "en" →
        overallOf (generateMockAnalysis code fileName language targetLanguage) = some (.str
          (units
            "Dit is een demo analyse. Configureer Groq API voor gedetailleerde code reviews."))) := by
  refine ⟨analyze_unconfigured cfg clock code fileName language targetLanguage h,
    mock_aiEnabled code fileName language targetLanguage, ?_, ?_⟩
  · intro hl
    rw [mock_overall, if_pos hl]
  · intro hl
    rw [mock_overall, if_neg hl]

/-- Witness of C3: no API key, a Dutch request and, through a disabled client, a French
one. -/
theorem C3_unconfigured_returns_mock_witness :
    (analyzeCodeWithAI noClientConfig sampleClock (units "let x = 1;") (units "a.js")
        (units "nl") (units "javascript")).calls = [] ∧
      overallOf (generateMockAnalysis (units "let x = 1;") (units "a.js") (units "fr")
        (units "javascript")) = some (.str (units
          "Dit is een demo analyse. Configureer Groq API voor gedetailleerde code reviews.")) :=
  ⟨by rw [(C3_unconfigured_returns_mock noClientConfig sampleClock (units "let x = 1;")
      (units "a.js") (units "nl") (units "javascript") (Or.inl rfl)).1],
   (C3_unconfigured_returns_mock ⟨some (replyingClient []), units "groq", false⟩ sampleClock
      (units "let x = 1;") (units "a.js") (units "fr") (units "javascript")
      (Or.inr rfl)).2.2.2 (by decide)⟩

/-- Counterexample to C4: a well-formed reply in the full shape whose `improvedCode` is
`a` followed by a fenced `b`; the clean-up removes the fence markers inside the string, so the
result carries `ab`. A well-formed reply with the three top-level keys but no
`feedback.improvements` is dropped for the placeholder. And with a clock stepped back during
the call, `analysisTime` is a negative duration. -/
theorem C4_counterexample :
    (fun v => field v (units "improvedCode")) <$> JSON.parse fencedCodeReply =
        .ok (some (.str (units "a ```b```"))) ∧
      (fun r => field r (units "improvedCode")) <$>
          (analyzeCodeWithAI (groqConfig (replyingClient fencedCodeReply)) sampleClock
            (units "let x = 1;") (units "a.js") (units "en") (units "javascript")).result =
        .resolved (some (.str (units "ab"))) ∧
      JSON.parse thinReply =
        .ok (.obj [(units "improvedCode", .str (units "x")), (units "feedback", .obj []),
          (units "statistics", .obj [])]) ∧
      (analyzeCodeWithAI (groqConfig (replyingClient thinReply)) sampleClock
          (units "let x = 1;") (units "a.js") (units "en") (units "javascript")).result =
        .resolved (generateMockAnalysis (units "let x = 1;") (units "a.js") (units "en")
          (units "javascript")) ∧
      (fun r => field r (units "analysisTime")) <$>
          (analyzeCodeWithAI (groqConfig (replyingClient plainReply)) steppedBackClock
            (units "let x = 1;") (units "a.js") (units "en") (units "javascript")).result =
        .resolved (some (.str (units "-1.50s"))) := by
  decide

/-- C4, amended: when the remote call succeeds and the reply text holds no code-fence marker
(no three backticks in a row) and is a well-formed JSON object whose `statistics` and
`feedback.improvements` are there and not `null`, every parsed property passes through
unchanged into the result (the result equals the JSON value of the reply on every key other
than `analysisTime` and `aiEnabled`), `aiEnabled` is `true` and `analysisTime` is the elapsed
time with two decimals and the unit `s`; that text is a non-negative duration whenever the
second clock reading is not before the first. -/
theorem C4_pass_through_without_fence (cfg : Config) (client : AiClient) (clock : Clock)
    (code fileName language targetLanguage : JsString) (completion : JsVal)
    (reply : JsString) (v : JsVal)
    (hc : cfg.aiClient = some client) (he : cfg.aiEnabled = true)
    (hcall : client [] (chatRequest cfg code fileName language targetLanguage) =
      some (.returned completion))
    (hread : readContent completion = .ok (.str reply))
    (hfence : containsFence reply = false)
    (hparse : JSON.parse reply = .ok v)
    (hstats : present (field v (units "statistics")) = true)
    (himp : present (improvementsOf v) = true) :
    ∃ r, (analyzeCodeWithAI cfg clock code fileName language targetLanguage).result = .resolved r ∧
      (∀ k, k ≠ units "analysisTime" → k ≠ units "aiEnabled" → field r k = field v k) ∧
      field r (units "aiEnabled") = some (.bool true) ∧
      field r (units "analysisTime") = some (.str
        (toFixed2 clock.hundredths (clock.endTime - clock.startTime) ++ units "s")) ∧
      (clock.startTime ≤ clock.endTime →
        field r (units "analysisTime") = some (.str
          (durationText (clock.hundredths (clock.endTime - clock.startTime).natAbs)))) := by
  cases v with
  | obj kvs =>
    have hx := extractJson_of_noFence reply kvs hfence hparse
    have hT : field (.obj (setField (setField kvs (units "analysisTime")
        (.str (toFixed2 clock.hundredths (clock.endTime - clock.startTime) ++ units "s")))
        (units "aiEnabled") (.bool true))) (units "analysisTime") = some (.str
        (toFixed2 clock.hundredths (clock.endTime - clock.startTime) ++ units "s")) := by
      simp only [field]
      rw [lookup_setField_ne _ _ _ _ (by decide)]
      exact lookup_setField_eq _ _ _
    refine ⟨_, analyze_reply_object cfg client clock code fileName language targetLanguage
      completion reply kvs hc he hcall hread hx hstats himp, ?_, ?_, hT, ?_⟩
    · intro k hk1 hk2
      simp only [field]
      rw [lookup_setField_ne _ _ _ _ hk2, lookup_setField_ne _ _ _ _ hk1]
    · exact lookup_setField_eq _ _ _
    · intro hle
      rw [hT, toFixed2_of_nonneg clock.hundredths _ (sub_nonneg.mpr hle)]
  | undefined => cases hstats
  | null => cases hstats
  | bool b => cases hstats
  | num n => cases hstats
  | str s => cases hstats
  | arr items => cases hstats

/-- Witness of the amended C4: a fence-free reply in the full shape; its `improvedCode`
reaches the result as it is, and 1234 milliseconds give the text `1.23s`. -/
theorem C4_pass_through_without_fence_witness :
    JSON.parse plainReply = .ok plainValue ∧
      (fun r => field r (units "improvedCode")) <$>
          (analyzeCodeWithAI (groqConfig (replyingClient plainReply)) sampleClock
            (units "let x = 1;") (units "a.js") (units "en") (units "javascript")).result =
        .resolved (some (.str (units "const x = 1;"))) ∧
      (fun r => field r (units "analysisTime")) <$>
          (analyzeCodeWithAI (groqConfig (replyingClient plainReply)) sampleClock
            (units "let x = 1;") (units "a.js") (units "en") (units "javascript")).result =
        .resolved (some (.str (units "1.23s"))) := by
  obtain ⟨r, h1, h2, _, _, h5⟩ := C4_pass_through_without_fence
    (groqConfig (replyingClient plainReply)) (replyingClient plainReply) sampleClock
    (units "let x = 1;") (units "a.js") (units "en") (units "javascript")
    (completionOf plainReply) plainReply plainValue rfl rfl rfl rfl (by decide)
    (by decide) (by decide) (by decide)
  rw [h1]
  exact ⟨by decide,
    congrArg Settled.resolved ((h2 _ (by decide) (by decide)).trans (by decide)),
    congrArg Settled.resolved ((h5 (by decide)).trans (by decide))⟩

/-- C5: fence-wrapping is transparent to extraction. For every text `J` that `JSON.parse`
reads as an object, the clean-up-and-parse step applied to `J` inside a `json` fence, and to
`J` inside a bare fence, gives what the same step gives for `J` alone (the same value, or
the same failure when the clean-up damages `J` itself). -/
theorem C5_fence_transparent (J : JsString) (kvs : List (JsString × JsVal))
    (hJ : JSON.parse J = .ok (.obj kvs)) :
    extractJson (fencedJson J) = extractJson J ∧ extractJson (fencedBare J) = extractJson J := by
  obtain ⟨h1, h2⟩ := clean_of_object J kvs hJ
  unfold extractJson jsonText
  rw [h1, h2]
  exact ⟨rfl, rfl⟩

/-- Witness of C5: an object between white space, with a fence inside a string value. -/
theorem C5_fence_transparent_witness :
    extractJson (fencedJson (units " \x7b\"code\": \"```json x```\"\x7d\n")) =
        extractJson (units " \x7b\"code\": \"```json x```\"\x7d\n") ∧
      extractJson (fencedBare (units " \x7b\"code\": \"```json x```\"\x7d\n")) =
        extractJson (units " \x7b\"code\": \"```json x```\"\x7d\n") :=
  C5_fence_transparent (units " \x7b\"code\": \"```json x```\"\x7d\n")
    [(units "code", .str (units "```json x```"))] (by decide)

/-- C6: when the cleaned reply does not start with an opening brace but has an opening brace
followed later by a closing brace, the text handed to `JSON.parse` is exactly the stretch from
the first opening brace (none in `pre`) to the last closing brace (none in `post`): the match
is greedy, `mid` may hold braces of its own, and `pre` and `post` are ignored. -/
theorem C6_greedy_brace_span (reply pre mid post : JsString)
    (hclean : cleanResponse reply = pre ++ 123 :: (mid ++ 125 :: post))
    (hstart : (cleanResponse reply).head? ≠ some 123)
    (hfirst : 123 ∉ pre) (hlast : 125 ∉ post) :
    jsonText reply = 123 :: (mid ++ [125]) ∧
      extractJson reply = JSON.parse (123 :: (mid ++ [125])) := by
  have htext : jsonText reply = 123 :: (mid ++ [125]) := by
    unfold jsonText
    rw [if_neg hstart, hclean, braceSpan_eq pre mid post hfirst hlast]
  exact ⟨htext, by unfold extractJson; rw [htext]⟩

/-- Witness of C6: prose, an object with a nested object, prose with a stray closing brace
before it ends. -/
theorem C6_greedy_brace_span_witness :
    jsonText (units "Here is the result: \x7b\"a\":\x7b\"b\":1\x7d\x7d Bye!") =
        units "\x7b\"a\":\x7b\"b\":1\x7d\x7d" ∧
      extractJson (units "Here is the result: \x7b\"a\":\x7b\"b\":1\x7d\x7d Bye!") =
        JSON.parse (units "\x7b\"a\":\x7b\"b\":1\x7d\x7d") :=
  C6_greedy_brace_span (units "Here is the result: \x7b\"a\":\x7b\"b\":1\x7d\x7d Bye!")
    (units "Here is the result: ") (units "\"a\":\x7b\"b\":1\x7d") (units " Bye!")
    (by decide) (by decide) (by decide) (by decide)

/-- C7: when the remote call succeeds but the reply text is not parseable as JSON after
clean-up, `analyzeCodeWithAI` discards the reply and returns the placeholder
`generateMockAnalysis(code, fileName, language, targetLanguage)`, whose `aiEnabled` is
`false`. -/
theorem C7_unparseable_reply_returns_mock (cfg : Config) (client : AiClient) (clock : Clock)
    (code fileName language targetLanguage : JsString) (completion : JsVal)
    (reply : JsString) (e : Thrown)
    (hc : cfg.aiClient = some client) (he : cfg.aiEnabled = true)
    (hcall : client [] (chatRequest cfg code fileName language targetLanguage) =
      some (.returned completion))
    (hread : readContent completion = .ok (.str reply))
    (hparse : extractJson reply = .error e) :
    (analyzeCodeWithAI cfg clock code fileName language targetLanguage).result =
        .resolved (generateMockAnalysis code fileName language targetLanguage) ∧
      field (generateMockAnalysis code fileName language targetLanguage) (units "aiEnabled") =
        some (.bool false) := by
  rw [analyze_parse_failure cfg client clock code fileName language targetLanguage completion
    reply e hc he hcall hread hparse]
  exact ⟨rfl, rfl⟩

/-- Witness of C7: the reply `I cannot comply`. -/
theorem C7_unparseable_reply_returns_mock_witness :
    extractJson (units "I cannot comply") = .error .jsonError ∧
      (analyzeCodeWithAI (groqConfig (replyingClient (units "I cannot comply"))) sampleClock
        (units "let x = 1;") (units "a.js") (units "en") (units "javascript")).result =
        .resolved (generateMockAnalysis (units "let x = 1;") (units "a.js") (units "en")
          (units "javascript")) :=
  ⟨by decide,
   (C7_unparseable_reply_returns_mock (groqConfig (replyingClient (units "I cannot comply")))
      (replyingClient (units "I cannot comply")) sampleClock (units "let x = 1;") (units "a.js")
      (units "en") (units "javascript") (completionOf (units "I cannot comply"))
      (units "I cannot comply") .jsonError rfl rfl rfl (by decide) (by decide)).1⟩

/-- C8: when the remote call itself raises an error (of any status, 429 and 400 included, or
with no status at all; anything but `null` and `undefined`), `analyzeCodeWithAI` returns the
placeholder `generateMockAnalysis(code, fileName, language, targetLanguage)`, whose
`aiEnabled` is `false`, and the remote client has been handed exactly one request, the one
for the first model of the list when the provider is Groq: no retry, no second model. This holds whatever the client would answer
to a further request: only its answer to the first one is constrained. -/
theorem C8_client_error_returns_mock_once (cfg : Config) (client : AiClient) (clock : Clock)
    (code fileName language targetLanguage : JsString) (e : Thrown)
    (hc : cfg.aiClient = some client) (he : cfg.aiEnabled = true)
    (hcall : client [] (chatRequest cfg code fileName language targetLanguage) =
      some (.raised e))
    (herr : isNullish e = false) :
    analyzeCodeWithAI cfg clock code fileName language targetLanguage =
        ⟨.resolved (generateMockAnalysis code fileName language targetLanguage),
         [chatRequest cfg code fileName language targetLanguage]⟩ ∧
      (analyzeCodeWithAI cfg clock code fileName language targetLanguage).result =
        .resolved (generateMockAnalysis code fileName language targetLanguage) ∧
      field (generateMockAnalysis code fileName language targetLanguage) (units "aiEnabled") =
        some (.bool false) ∧
      (analyzeCodeWithAI cfg clock code fileName language targetLanguage).calls =
        [chatRequest cfg code fileName language targetLanguage] ∧
      (analyzeCodeWithAI cfg clock code fileName language targetLanguage).calls.length = 1 ∧
      (cfg.aiProvider = units "groq" →
        field (chatRequest cfg code fileName language targetLanguage) (units "model") =
          some (.str (units "llama-3.1-8b-instant"))) := by
  rw [analyze_client_error cfg client clock code fileName language targetLanguage e hc he
    hcall herr]
  refine ⟨rfl, rfl, rfl, rfl, rfl, fun hp => ?_⟩
  have hm : field (chatRequest cfg code fileName language targetLanguage) (units "model") =
      some (.str (chooseModel cfg.aiProvider)) := rfl
  rw [hm, chooseModel, if_pos hp]
  rfl

/-- Witness of C8: a client that rejects its first request with status 400 and would answer
a second one with a well-formed reply. The result is the placeholder, not that reply, and
one request was handed over. -/
theorem C8_client_error_returns_mock_once_witness :
    flakyClient (.clientError (units "model not found") (some 400)) plainReply
        [chatRequest (groqConfig (flakyClient (.clientError (units "model not found")
          (some 400)) plainReply)) (units "let x = 1;") (units "a.js") (units "nl")
          (units "javascript")]
        (chatRequest (groqConfig (flakyClient (.clientError (units "model not found")
          (some 400)) plainReply)) (units "let x = 1;") (units "a.js") (units "nl")
          (units "javascript")) =
        some (.returned (completionOf plainReply)) ∧
      analyzeCodeWithAI
          (groqConfig (flakyClient (.clientError (units "model not found") (some 400))
            plainReply))
          sampleClock (units "let x = 1;") (units "a.js") (units "nl") (units "javascript") =
        ⟨.resolved (generateMockAnalysis (units "let x = 1;") (units "a.js") (units "nl")
            (units "javascript")),
         [chatRequest (groqConfig (flakyClient (.clientError (units "model not found")
            (some 400)) plainReply)) (units "let x = 1;") (units "a.js") (units "nl")
            (units "javascript")]⟩ ∧
      (analyzeCodeWithAI
          (groqConfig (flakyClient (.clientError (units "model not found") (some 400))
            plainReply))
          sampleClock (units "let x = 1;") (units "a.js") (units "nl")
          (units "javascript")).calls.length = 1 :=
  ⟨rfl,
   (C8_client_error_returns_mock_once
      (groqConfig (flakyClient (.clientError (units "model not found") (some 400))
        plainReply))
      (flakyClient (.clientError (units "model not found") (some 400)) plainReply)
      sampleClock (units "let x = 1;") (units "a.js") (units "nl") (units "javascript")
      (.clientError (units "model not found") (some 400)) rfl rfl rfl rfl).1,
   (C8_client_error_returns_mock_once
      (groqConfig (flakyClient (.clientError (units "model not found") (some 400))
        plainReply))
      (flakyClient (.clientError (units "model not found") (some 400)) plainReply)
      sampleClock (units "let x = 1;") (units "a.js") (units "nl") (units "javascript")
      (.clientError (units "model not found") (some 400)) rfl rfl rfl rfl).2.2.2.2.1⟩

/-- Counterexample to C9: for the same code, file name and languages, the result after the
unparseable reply `I cannot comply` is the very result returned when no client is configured.
Nothing in it records that a model call was attempted. -/
theorem C9_counterexample :
    (analyzeCodeWithAI (groqConfig (replyingClient (units "I cannot comply"))) sampleClock
        (units "let x = 1;") (units "a.js") (units "en") (units "javascript")).result =
      (analyzeCodeWithAI noClientConfig sampleClock
        (units "let x = 1;") (units "a.js") (units "en") (units "javascript")).result := by
  decide

/-- C9, amended: for the same code, file name and languages, the result `analyzeCodeWithAI`
returns after a reply that fails to parse equals the result it returns when no remote client
is configured (both are `generateMockAnalysis(...)`, with `aiEnabled` false); the two runs
differ only in the requests handed to the client: one against none. -/
theorem C9_fallbacks_coincide (cfg off : Config) (client : AiClient) (clock : Clock)
    (code fileName language targetLanguage : JsString) (completion : JsVal)
    (reply : JsString) (e : Thrown)
    (hc : cfg.aiClient = some client) (he : cfg.aiEnabled = true)
    (hcall : client [] (chatRequest cfg code fileName language targetLanguage) =
      some (.returned completion))
    (hread : readContent completion = .ok (.str reply))
    (hparse : extractJson reply = .error e)
    (hoff : off.aiClient = none ∨ off.aiEnabled = false) :
    (analyzeCodeWithAI cfg clock code fileName language targetLanguage).result =
        (analyzeCodeWithAI off clock code fileName language targetLanguage).result ∧
      (analyzeCodeWithAI cfg clock code fileName language targetLanguage).calls.length = 1 ∧
      (analyzeCodeWithAI off clock code fileName language targetLanguage).calls.length = 0 := by
  rw [analyze_parse_failure cfg client clock code fileName language targetLanguage completion
    reply e hc he hcall hread hparse,
    analyze_unconfigured off clock code fileName language targetLanguage hoff]
  exact ⟨rfl, rfl, rfl⟩

/-- Witness of the amended C9: the reply `Sorry, no JSON today` against no client. -/
theorem C9_fallbacks_coincide_witness :
    (analyzeCodeWithAI (groqConfig (replyingClient (units "Sorry, no JSON today"))) sampleClock
        (units "print(1)") (units "a.py") (units "nl") (units "python")).calls.length = 1 ∧
      (analyzeCodeWithAI noClientConfig sampleClock
        (units "print(1)") (units "a.py") (units "nl") (units "python")).calls.length = 0 :=
  (C9_fallbacks_coincide (groqConfig (replyingClient (units "Sorry, no JSON today")))
    noClientConfig (replyingClient (units "Sorry, no JSON today")) sampleClock
    (units "print(1)") (units "a.py") (units "nl") (units "python")
    (completionOf (units "Sorry, no JSON today")) (units "Sorry, no JSON today") .jsonError
    rfl rfl rfl (by decide) (by decide) (Or.inl rfl)).2

/-- C10: brace-span extraction is applied only when the cleaned reply does not start with an
opening brace. For every reply whose cleaned text starts with one, the whole cleaned text is
what `JSON.parse` receives; so when that text does not parse (a valid object followed by
prose, say) nothing is recovered and the result is the placeholder, with `aiEnabled` false. -/
theorem C10_no_span_when_brace_first (cfg : Config) (client : AiClient) (clock : Clock)
    (code fileName language targetLanguage : JsString) (completion : JsVal)
    (reply : JsString) (e : Thrown)
    (hc : cfg.aiClient = some client) (he : cfg.aiEnabled = true)
    (hcall : client [] (chatRequest cfg code fileName language targetLanguage) =
      some (.returned completion))
    (hread : readContent completion = .ok (.str reply))
    (hstart : (cleanResponse reply).head? = some 123)
    (hparse : JSON.parse (cleanResponse reply) = .error e) :
    jsonText reply = cleanResponse reply ∧
      (analyzeCodeWithAI cfg clock code fileName language targetLanguage).result =
        .resolved (generateMockAnalysis code fileName language targetLanguage) ∧
      field (generateMockAnalysis code fileName language targetLanguage) (units "aiEnabled") =
        some (.bool false) := by
  have htext : jsonText reply = cleanResponse reply := by
    unfold jsonText
    rw [if_pos hstart]
  have hx : extractJson reply = .error e := by
    unfold extractJson
    rw [htext, hparse]
  rw [analyze_parse_failure cfg client clock code fileName language targetLanguage completion
    reply e hc he hcall hread hx]
  exact ⟨htext, rfl, rfl⟩

/-- Witness of C10: the object text alone parses; followed by `hope this helps` it is handed
to `JSON.parse` whole and the result is the placeholder. -/
theorem C10_no_span_when_brace_first_witness :
    JSON.parse (units "\x7b\"a\":1\x7d") = .ok (.obj [(units "a", .num (units "1"))]) ∧
      jsonText (units "\x7b\"a\":1\x7d hope this helps") =
        units "\x7b\"a\":1\x7d hope this helps" ∧
      (analyzeCodeWithAI (groqConfig (replyingClient (units "\x7b\"a\":1\x7d hope this helps")))
        sampleClock (units "let x = 1;") (units "a.js") (units "en") (units "javascript")).result =
        .resolved (generateMockAnalysis (units "let x = 1;") (units "a.js") (units "en")
          (units "javascript")) :=
  ⟨by decide,
   ((C10_no_span_when_brace_first
      (groqConfig (replyingClient (units "\x7b\"a\":1\x7d hope this helps")))
      (replyingClient (units "\x7b\"a\":1\x7d hope this helps")) sampleClock
      (units "let x = 1;") (units "a.js") (units "en") (units "javascript")
      (completionOf (units "\x7b\"a\":1\x7d hope this helps"))
      (units "\x7b\"a\":1\x7d hope this helps") .jsonError rfl rfl rfl (by decide) (by decide)
      (by decide)).1.trans (by decide)),
   (C10_no_span_when_brace_first
      (groqConfig (replyingClient (units "\x7b\"a\":1\x7d hope this helps")))
      (replyingClient (units "\x7b\"a\":1\x7d hope this helps")) sampleClock
      (units "let x = 1;") (units "a.js") (units "en") (units "javascript")
      (completionOf (units "\x7b\"a\":1\x7d hope this helps"))
      (units "\x7b\"a\":1\x7d hope this helps") .jsonError rfl rfl rfl (by decide) (by decide)
      (by decide)).2.1⟩

/-- C11: upload file name sanitisation. For every original file name, the sanitised name of
the multer storage callback has the same length as the original (in UTF-16 code units); it
holds only ASCII letters, digits, `.`, `-` and `_`, hence neither `/` nor a backslash; at
every position it has the original code unit when that one is allowed and an underscore
otherwise; and sanitising it again changes nothing. -/
theorem C11_sanitized_name (name : JsString) :
    (sanitizedName name).length = name.length ∧
      (∀ c ∈ sanitizedName name,
        (97 ≤ c ∧ c ≤ 122) ∨ (65 ≤ c ∧ c ≤ 90) ∨ (48 ≤ c ∧ c ≤ 57) ∨
          c = 46 ∨ c = 45 ∨ c = 95) ∧
      47 ∉ sanitizedName name ∧ 92 ∉ sanitizedName name ∧
      (∀ i : Nat, (sanitizedName name)[i]? =
        (name[i]?).map (fun c => if isAllowedUnit c = true then c else 95)) ∧
      sanitizedName (sanitizedName name) = sanitizedName name := by
  refine ⟨?_, ?_, ?_, ?_, ?_, ?_⟩
  · rw [sanitizedName_eq_map, List.length_map]
  · intro c hc
    exact (isAllowedUnit_iff c).mp (sanitizedName_allowed name c hc)
  · intro h
    have := sanitizedName_allowed name 47 h
    revert this
    decide
  · intro h
    have := sanitizedName_allowed name 92 h
    revert this
    decide
  · intro i
    rw [sanitizedName_eq_map, List.getElem?_map]
  · rw [sanitizedName_eq_map (sanitizedName name)]
    conv_rhs => rw [← List.map_id (sanitizedName name)]
    apply List.map_congr_left
    intro c hc
    rw [if_pos (sanitizedName_allowed name c hc)]
    rfl

/-- Witness of C11: a path that climbs out of the upload folder, and a name with a space,
brackets and the two halves of an emoji. -/
theorem C11_sanitized_name_witness :
    sanitizedName (units "../..\\etc/passwd") = units ".._.._etc_passwd" ∧
      (sanitizedName (units "mijn bestand (1).js" ++ [55357, 56832])).length = 21 ∧
      sanitizedName (sanitizedName (units "mijn bestand (1).js" ++ [55357, 56832])) =
        units "mijn_bestand__1_.js__" :=
  ⟨by decide,
   (C11_sanitized_name (units "mijn bestand (1).js" ++ [55357, 56832])).1.trans (by decide),
   (C11_sanitized_name (units "mijn bestand (1).js" ++ [55357, 56832])).2.2.2.2.2.trans
     (by decide)⟩

end Codereviewer
